import Mathlib

/-!
# ngp: result buffer, file walker, navigation and subsearch

A shallow embedding of `src/ngp.c` and the properties of its search engine and
result navigation.

Conventions of the embedding.

* A C string is the `List Char` of its bytes before the terminating NUL.
* `int` and `unsigned int` values are `Int` and `Nat`.  Every quantity involved
  (entry counts, terminal rows, line numbers) stays far below `2^31` for data
  that fits in memory, where C arithmetic and the arithmetic here agree.
* The globals `mainsearch`, `mainsearch_attr` and `current` and the `search_t`
  blocks obtained from `malloc` are gathered in one `session` value that the
  functions take and return.
* What the C library and the operating system do (`regcomp`, `regexec`,
  `fopen`, `opendir`, `readdir`, `stat`, `lstat`) is a parameter, `env_t`.
* A function returns `none` when the C code writes outside the object it
  indexes (past the capacity of the entry array, before the start of the line
  buffer) or uses a handle that was never assigned.
* A read that only inspects memory next to the data yields a value that is a
  parameter, and the theorems hold for every value of it: the bit that
  `is_file` finds outside the stored entries (`stray`), and the bytes that the
  suffix comparison of `lookup_file` finds before a path that is shorter than
  the extension (`before_path`).
-/

namespace Ngp

/-! ## Constants -/

/-- The value of `LINE_MAX` after the `#define` at the top of the file. -/
def LINE_MAX : Nat := 256

/-- The value of `PATH_MAX` of `<limits.h>` on Linux. -/
def PATH_MAX : Nat := 4096

/-- The value of `DT_DIR` of `<dirent.h>`. -/
def DT_DIR : Nat := 4

/-! ## Data model -/

/-- One row of a result set (`entry_t`): its text and the `isfile` bit. -/
structure entry_t where
  data : List Char
  isfile : Bool
deriving DecidableEq, Repr

/-- A pointer to a `search_t`: the address of the static `mainsearch`, or the
`k`-th block returned by `malloc` in `subsearch`. -/
inductive search_ptr where
  | main
  | node (k : Nat)
deriving DecidableEq, Repr

/-- The fields of `search_t`.  `entries` holds the `nbentry` slots written so
far, `size` is the capacity of the array.  `regex` is the compiled expression
the handle points to, named by the pattern it was compiled from; `none` is a
handle that was never assigned. -/
structure search_t where
  index : Int
  cursor : Int
  entries : List entry_t
  nb_lines : Nat
  size : Nat
  status : Bool
  directory : List Char
  pattern : List Char
  options : List Char
  is_regex : Bool
  regex : Option (List Char)
  father : Option search_ptr
  child : Option search_ptr
deriving DecidableEq, Repr

/-- The counter `nbentry`: the number of slots written so far. -/
def search_t.nbentry (t : search_t) : Nat := t.entries.length

/-- The fields of `mainsearch_attr_t`; the three linked lists are lists, first
element first. -/
structure mainsearch_attr_t where
  raw : Bool
  follow_symlinks : Bool
  has_excludes : Bool
  firstexcl : List (List Char)
  firstspec : List (List Char)
  firstext : List (List Char)
deriving DecidableEq, Repr

/-- The global state: `mainsearch`, `mainsearch_attr`, the `search_t` blocks
allocated by `subsearch`, and `current`.  `parsed` is a ghost field: the
`file` argument of every call to `parse_file` so far, oldest first. -/
structure session where
  mainsearch : search_t
  mainsearch_attr : mainsearch_attr_t
  heap : List search_t
  current : search_ptr
  parsed : List (List Char)
deriving DecidableEq, Repr

/-- One result of `readdir`: the fields `d_name` and `d_type`. -/
structure dirent where
  d_name : List Char
  d_type : Nat
deriving DecidableEq, Repr

/-- The world outside the program.
* `regcomp p`: whether `regcomp` accepts the pattern `p`;
* `regexec p line`: whether the expression compiled from `p` matches `line`;
* `fopen path`: the bytes of the file, or `none` when `fopen` returns `NULL`;
* `opendir path`: the entries `readdir` then returns, in order, or `none`;
* `lstat_islnk path`: `S_ISLNK` of `lstat`;
* `stat_isdir path`: `S_ISDIR` of `stat`;
* `before_path path k`: the `k` bytes that memory holds just before the buffer
  of `path`. -/
structure env_t where
  regcomp : List Char → Bool
  regexec : List Char → List Char → Bool
  fopen : List Char → Option (List Char)
  opendir : List Char → Option (List dirent)
  lstat_islnk : List Char → Bool
  stat_isdir : List Char → Bool
  before_path : List Char → Nat → List Char

/-- Reading through a `search_t` pointer. -/
def session.deref (s : session) : search_ptr → Option search_t
  | .main => some s.mainsearch
  | .node k => s.heap[k]?

/-- Writing through a `search_t` pointer. -/
def session.assign (s : session) (p : search_ptr) (t : search_t) : session :=
  match p with
  | .main => { s with mainsearch := t }
  | .node k => { s with heap := s.heap.set k t }

/-! ## C library functions on strings -/

/-- The C string held in a buffer: the bytes before the first NUL. -/
def cstr (buf : List Char) : List Char := buf.takeWhile (fun c => c != Char.ofNat 0)

/-- The test `strstr(haystack, needle) != NULL`. -/
def strstr : List Char → List Char → Bool
  | [], needle => needle.isEmpty
  | c :: rest, needle => needle.isPrefixOf (c :: rest) || strstr rest needle

/-- The test `strcasestr(haystack, needle) != NULL`. -/
def strcasestr (haystack needle : List Char) : Bool :=
  strstr (haystack.map Char.toLower) (needle.map Char.toLower)

/-- The test `strncmp(a, b, n) == 0`. -/
def strncmp_eq (a b : List Char) (n : Nat) : Bool := a.take n == b.take n

/-- What `strncpy(dst, src, n)` leaves in `dst`. -/
def strncpy (src : List Char) (n : Nat) : List Char := src.take n

/-- The text `strrchr(name, '/') + 1`, or `name` when it has no slash. -/
def name_begins (name : List Char) : List Char :=
  (name.reverse.takeWhile (fun c => c != '/')).reverse

/-- The successive buffers filled by `fgets(line, size, f)` until it returns
`NULL`: each read takes bytes up to and including a newline, and at most
`size - 1` of them.  `room` is what is left of the current read, `acc` what it
has taken so far (last byte first). -/
def fgets_reads (size : Nat) : Nat → List Char → List Char → List (List Char)
  | _, acc, [] => if acc.isEmpty then [] else [acc.reverse]
  | room, acc, c :: rest =>
    if c = '\n' ∨ room ≤ 1 then (c :: acc).reverse :: fgets_reads size (size - 1) [] rest
    else fgets_reads size (room - 1) (c :: acc) rest

/-- The text printed by `snprintf(buf, n, "%d:%s", number, line)`. -/
def snprintf_number_line (n : Nat) (number : Nat) (line : List Char) : List Char :=
  (Nat.toDigits 10 number ++ ':' :: line).take (n - 1)

/-- The text printed by `snprintf(buf, n, "%s/%s", dir, name)`. -/
def snprintf_path (n : Nat) (dir name : List Char) : List Char :=
  (dir ++ '/' :: name).take (n - 1)

/-! ## Utils -/

/-- The function `is_file`: `current->entries[index].isfile`, where `cur` is
`*current`.  Outside the stored entries the bit read is `stray index`. -/
def is_file (stray : Int → Bool) (cur : search_t) (index : Int) : Bool :=
  if 0 ≤ index ∧ index < (cur.nbentry : Int) then
    match cur.entries[index.toNat]? with
    | some e => e.isfile
    | none => stray index
  else stray index

/-- The function `is_dir_good`. -/
def is_dir_good (attr : mainsearch_attr_t) (dir : List Char) : Bool :=
  if attr.has_excludes ∧ attr.firstexcl.any (fun path => strncmp_eq path dir LINE_MAX) then false
  else dir != ".".toList && dir != "..".toList && dir != ".git".toList && dir != ".svn".toList

/-- The function `is_specific_file`. -/
def is_specific_file (attr : mainsearch_attr_t) (name : List Char) : Bool :=
  attr.firstspec.any (fun spec => strncmp_eq (name_begins name) spec LINE_MAX)

/-! ## Memory handling -/

/-- The function `check_alloc`. -/
def check_alloc (toinc : search_t) (size : Nat) : search_t :=
  if toinc.nbentry ≥ toinc.size then { toinc with size := toinc.size + size } else toinc

/-- The assignment to `entries[nbentry]` followed by `nbentry++`: defined when
the slot lies within the capacity. -/
def store (t : search_t) (e : entry_t) : Option search_t :=
  if t.nbentry < t.size then some { t with entries := t.entries ++ [e] } else none

/-- The function `mainsearch_add_file`. -/
def mainsearch_add_file (s : session) (file : List Char) : Option session :=
  match store (check_alloc s.mainsearch 500) ⟨strncpy file PATH_MAX, true⟩ with
  | none => none
  | some m => some { s with mainsearch := m }

/-- The function `mainsearch_add_line` (its call of `display_entries` changes
no state). -/
def mainsearch_add_line (s : session) (line : List Char) : Option session :=
  match store (check_alloc s.mainsearch 500) ⟨strncpy line LINE_MAX, false⟩ with
  | none => none
  | some m => some { s with mainsearch := { m with nb_lines := m.nb_lines + 1 } }

/-! ## Parsing -/

/-- The function `is_regex_valid`: on success the compiled expression is stored
in `mainsearch.regex`. -/
def is_regex_valid (env : env_t) (s : session) (cursearch : search_t) : session × Bool :=
  if env.regcomp cursearch.pattern then
    ({ s with mainsearch := { s.mainsearch with regex := some cursearch.pattern } }, true)
  else (s, false)

/-- The function `regex`, as the test `regex(line, pattern) != NULL`: it runs
`regexec` on `current->regex`. -/
def regex (env : env_t) (s : session) (line : List Char) : Option Bool :=
  match s.deref s.current with
  | none => none
  | some cur =>
    match cur.regex with
    | none => none
    | some re => some (env.regexec re line)

/-- The test `parser(line, pattern) != NULL` for the `parser` that `parse_file`
selects. -/
def parser (env : env_t) (s : session) (pattern options line : List Char) : Option Bool :=
  match s.deref s.current with
  | none => none
  | some cur =>
    if cur.is_regex then regex env s line
    else if strstr options "-i".toList then some (strcasestr line pattern)
    else some (strstr line pattern)

/-- The removal of a carriage return in `parse_file`: `line[strlen(line) - 2]`
is read, and when it is a carriage return a NUL is written over it. -/
def strip_cr (text : List Char) : Option (List Char) :=
  if text.length < 2 then none
  else if text[text.length - 2]? = some '\r' then some (text.take (text.length - 2))
  else some text

/-- The `while (fgets(...))` loop of `parse_file`, over the successive reads. -/
def parse_loop (env : env_t) (file pattern options : List Char) :
    List (List Char) → session → Bool → Nat → Option session
  | [], s, _, _ => some s
  | buf :: rest, s, first, line_number =>
    match parser env s pattern options (cstr buf) with
    | none => none
    | some false => parse_loop env file pattern options rest s first (line_number + 1)
    | some true =>
      match (if first then mainsearch_add_file s file else some s) with
      | none => none
      | some s1 =>
        match strip_cr (cstr buf) with
        | none => none
        | some line =>
          match mainsearch_add_line s1 (snprintf_number_line LINE_MAX line_number line) with
          | none => none
          | some s2 => parse_loop env file pattern options rest s2 false (line_number + 1)

/-- The function `parse_file`. -/
def parse_file (env : env_t) (s : session) (file pattern options : List Char) : Option session :=
  let s0 := { s with parsed := s.parsed ++ [file] }
  match env.fopen file with
  | none => some s0
  | some f =>
    parse_loop env file pattern options (fgets_reads LINE_MAX (LINE_MAX - 1) [] f) s0 true 1

/-- The C string at `file + strlen(file) - strlen(ext)`: the end of the path,
or, when the extension is longer than the path, the bytes before the path
followed by the path. -/
def suffix_read (env : env_t) (file ext : List Char) : List Char :=
  if ext.length ≤ file.length then file.drop (file.length - ext.length)
  else cstr (env.before_path file (ext.length - file.length) ++ file)

/-- The loop of `lookup_file` over the extension list. -/
def lookup_file_loop (env : env_t) (s : session) (file pattern options : List Char) :
    List (List Char) → Option session
  | [] => some s
  | ext :: rest =>
    if ext = suffix_read env file ext then parse_file env s file pattern options
    else lookup_file_loop env s file pattern options rest

/-- The function `lookup_file`. -/
def lookup_file (env : env_t) (s : session) (file pattern options : List Char) : Option session :=
  if s.mainsearch_attr.raw then parse_file env s file pattern options
  else if is_specific_file s.mainsearch_attr file then parse_file env s file pattern options
  else lookup_file_loop env s file pattern options s.mainsearch_attr.firstext

/-- The loop of `lookup_directory` over the results of `readdir`; `descend` is
the recursive call of `lookup_directory`. -/
def readdir_loop (env : env_t) (descend : session → List Char → Option session)
    (dir pattern options : List Char) : List dirent → session → Option session
  | [], s => some s
  | ep :: rest, s =>
    let good := is_dir_good s.mainsearch_attr ep.d_name
    let file_path := snprintf_path PATH_MAX dir ep.d_name
    match (if ep.d_type &&& DT_DIR = 0 ∧ good then
             (if ¬ env.lstat_islnk file_path ∨ s.mainsearch_attr.follow_symlinks then
                lookup_file env s file_path pattern options
              else some s)
           else some s) with
    | none => none
    | some s1 =>
      match (if ep.d_type &&& DT_DIR ≠ 0 ∧ is_dir_good s1.mainsearch_attr ep.d_name then
               descend s1 (snprintf_path PATH_MAX dir ep.d_name)
             else some s1) with
      | none => none
      | some s2 => readdir_loop env descend dir pattern options rest s2

/-- The function `lookup_directory`.  The first argument bounds the nesting of
the calls; `none` is also returned when the bound is exceeded. -/
def lookup_directory (env : env_t) (pattern options : List Char) :
    Nat → session → List Char → Option session
  | 0, _, _ => none
  | depth + 1, s, dir =>
    match env.opendir dir with
    | none => some s
    | some eps => readdir_loop env (lookup_directory env pattern options depth) dir pattern options eps s

/-- The function `lookup_thread`, called on `&mainsearch`. -/
def lookup_thread (env : env_t) (depth : Nat) (s : session) : Option session :=
  let d := s.mainsearch
  match (if ¬ env.stat_isdir d.directory then lookup_file env s d.directory d.pattern d.options
         else lookup_directory env d.pattern d.options depth s d.directory) with
  | none => none
  | some s1 => some { s1 with mainsearch := { s1.mainsearch with status := false } }

/-! ## Initialisation -/

/-- The function `init_searchstruct`: the fields it assigns; `nbentry = 0` is
the empty list of written slots. -/
def init_searchstruct (t : search_t) : search_t :=
  { t with index := 0, cursor := 0, size := 100, entries := [], nb_lines := 0, status := true,
           is_regex := false, directory := "./".toList, father := none, child := none }

/-- A `search_t` block as `malloc` returns it: no field has been assigned, in
particular the handle `regex`. -/
def malloc_search_t : search_t :=
  { index := 0, cursor := 0, entries := [], nb_lines := 0, size := 0, status := false,
    directory := [], pattern := [], options := [], is_regex := false, regex := none,
    father := none, child := none }

/-! ## Display: the navigation state machine

`LINES` is the height of the terminal, `cur` is `*current`, and the pair is
`(*index, *cursor)` before and after the call. -/

/-- The function `page_up`. -/
def page_up (LINES : Int) (stray : Int → Bool) (cur : search_t) (index _cursor : Int) :
    Int × Int :=
  let cursor : Int := if index = 0 then 0 else LINES - 1
  let index := index - LINES
  let index := if index < 0 then 0 else index
  let cursor := if is_file stray cur (index + cursor) ∧ index ≠ 0 then cursor - 1 else cursor
  (index, cursor)

/-- The function `page_down`. -/
def page_down (LINES : Int) (stray : Int → Bool) (cur : search_t) (index cursor : Int) :
    Int × Int :=
  if cur.nbentry = 0 then (index, cursor)
  else
    let nbentry : Int := cur.nbentry
    let max_index := if nbentry % LINES = 0 then nbentry - LINES else nbentry - nbentry % LINES
    let cursor := if index = max_index then (nbentry - 1) % LINES else 0
    let index := index + LINES
    let index := if index > max_index then max_index else index
    let cursor := if is_file stray cur (index + cursor) then cursor + 1 else cursor
    (index, cursor)

/-- The function `cursor_up`. -/
def cursor_up (LINES : Int) (stray : Int → Bool) (cur : search_t) (index cursor : Int) :
    Int × Int :=
  if cursor = 0 then page_up LINES stray cur index cursor
  else
    let cursor := if cursor > 0 then cursor - 1 else cursor
    let cursor := if is_file stray cur (index + cursor) then cursor - 1 else cursor
    if cursor < 0 then page_up LINES stray cur index cursor
    else (index, cursor)

/-- The function `cursor_down`. -/
def cursor_down (LINES : Int) (stray : Int → Bool) (cur : search_t) (index cursor : Int) :
    Int × Int :=
  if cursor = LINES - 1 then page_down LINES stray cur index cursor
  else
    let cursor := if cursor + index < (cur.nbentry : Int) - 1 then cursor + 1 else cursor
    let cursor := if is_file stray cur (index + cursor) then cursor + 1 else cursor
    if cursor > LINES - 1 then page_down LINES stray cur index cursor
    else (index, cursor)

/-! ## Subsearch -/

/-- The `for` loop of `subsearch` over the entries of the father, `i` being the
loop index.  `s` is the session the loop runs in (`regex` reads `current`),
`cur` is `*current` (read by `is_file`); `child`, `orphan_file` and `new_data`
are the local variables. -/
def subsearch_loop (env : env_t) (stray : Int → Bool) (s : session) (cur : search_t) :
    List entry_t → Nat → search_t → Bool → List Char → Option search_t
  | [], _, child, _, _ => some child
  | fe :: rest, i, child, orphan_file, new_data =>
    if is_file stray cur i then
      subsearch_loop env stray s cur rest (i + 1) child true (strncpy fe.data LINE_MAX)
    else
      match regex env s fe.data with
      | none => none
      | some false => subsearch_loop env stray s cur rest (i + 1) child orphan_file new_data
      | some true =>
        match (if orphan_file then store (check_alloc child 100) ⟨new_data, true⟩
               else some (check_alloc child 100)) with
        | none => none
        | some child1 =>
          match store child1 ⟨strncpy fe.data LINE_MAX, false⟩ with
          | none => none
          | some child2 =>
            subsearch_loop env stray s cur rest (i + 1)
              { child2 with nb_lines := child2.nb_lines + 1 } false (strncpy fe.data LINE_MAX)

/-- The function `subsearch`; `search` is the text that `subsearch_window`
collected.  The result is the new session and the pointer returned (`none` for
`NULL`). -/
def subsearch (env : env_t) (stray : Int → Bool) (s : session) (father : search_ptr)
    (search : List Char) : Option (session × Option search_ptr) :=
  if search.isEmpty then some (s, none)
  else
    let childp := search_ptr.node s.heap.length
    let child := { init_searchstruct malloc_search_t with father := some father }
    let s1 := { s with heap := s.heap ++ [child] }
    match s1.deref father with
    | none => none
    | some f =>
      let s2 := s1.assign father { f with child := some childp }
      let child := { child with pattern := strncpy search LINE_MAX }
      let s3 := s2.assign childp child
      let (s4, valid) := is_regex_valid env s3 child
      if ¬ valid then some (s4, none)
      else
        match s4.deref father, s4.deref s4.current with
        | some f, some cur =>
          match subsearch_loop env stray s4 cur f.entries 0 child false [] with
          | none => none
          | some child => some (s4.assign childp { child with size := child.nbentry }, some childp)
        | _, _ => none

/-- The `case '/'` of the loop of `main`: `tmp = subsearch(current)`, and
`current = tmp` when `tmp` is not `NULL`. -/
def main_case_slash (env : env_t) (stray : Int → Bool) (s : session) (search : List Char) :
    Option session :=
  match subsearch env stray s s.current search with
  | none => none
  | some (s1, none) => some s1
  | some (s1, some tmp) => some { s1 with current := tmp }

/-- The state of the globals in `main` once the command line has been read:
`init_searchstruct` on the zero-initialised `mainsearch`, `current = &mainsearch`,
the pattern, directory and flags of the command line; the entry array is the
`calloc` of `size` slots, none written. -/
def main_init (attr : mainsearch_attr_t) (pattern directory options : List Char)
    (is_regex : Bool) : session :=
  { mainsearch := { init_searchstruct malloc_search_t with
                      pattern := pattern, directory := directory, options := options,
                      is_regex := is_regex }
    mainsearch_attr := attr
    heap := []
    current := .main
    parsed := [] }

/-! ## The shape of a result buffer -/

/-- The entry at index `i` exists and is a file header. -/
def is_header (buf : List entry_t) (i : Nat) : Prop :=
  (buf[i]?).map entry_t.isfile = some true

/-- The entry at index `i` exists and is a match line. -/
def is_match_line (buf : List entry_t) (i : Nat) : Prop :=
  (buf[i]?).map entry_t.isfile = some false

instance (buf : List entry_t) (i : Nat) : Decidable (is_header buf i) := by
  unfold is_header; infer_instance

instance (buf : List entry_t) (i : Nat) : Decidable (is_match_line buf i) := by
  unfold is_match_line; infer_instance

/-- A well-formed result buffer: it is empty or starts with a file header;
every match line has exactly one owning header, at an earlier index with no
other header in between; every header is immediately followed by a match
line (so no header is last). -/
structure well_formed (buf : List entry_t) : Prop where
  starts_with_header : buf = [] ∨ is_header buf 0
  owner : ∀ i, is_match_line buf i →
    ∃! j, j < i ∧ is_header buf j ∧ ∀ k, j < k → k < i → ¬ is_header buf k
  header_has_match : ∀ i, is_header buf i → is_match_line buf (i + 1)

/-! ## What `parse_file` stores, in words -/

/-- The text kept of a line as `fgets` read it: the whole text, newline
included, unless the byte before the last one is a carriage return, in which
case the text is cut at that carriage return. -/
def kept_text (text : List Char) : List Char :=
  if 2 ≤ text.length ∧ text[text.length - 2]? = some '\r' then text.take (text.length - 2)
  else text

/-- The match entry for the `number`-th read: the decimal number, a colon and
the kept text, limited to the 255 bytes that fit the line buffer. -/
def match_entry (number : Nat) (text : List Char) : entry_t :=
  ⟨(Nat.toDigits 10 number ++ [':'] ++ kept_text text).take 255, false⟩

/-- The match entries of the reads that `hit` accepts; the reads are numbered
from `number` on. -/
def match_entries (hit : List Char → Bool) (number : Nat) (reads : List (List Char)) :
    List entry_t :=
  (reads.enumFrom number).filterMap
    (fun p => if hit (cstr p.2) then some (match_entry p.1 (cstr p.2)) else none)

/-- The entries one file contributes: nothing when no read is accepted,
otherwise a header with the path followed by the match entries. -/
def file_entries (hit : List Char → Bool) (file : List Char) (reads : List (List Char)) :
    List entry_t :=
  match match_entries hit 1 reads with
  | [] => []
  | l => ⟨file.take PATH_MAX, true⟩ :: l

/-- The matcher that `parse_file` applies in session `s`, as a test. -/
def hit (env : env_t) (s : session) (pattern options : List Char) (text : List Char) : Bool :=
  parser env s pattern options text == some true

/-! ## The part of a session the walker leaves unchanged -/

/-- The part of the session that appending to the buffer of `mainsearch`
leaves alone. -/
structure frame (s s' : session) : Prop where
  attr : s'.mainsearch_attr = s.mainsearch_attr
  heap : s'.heap = s.heap
  current : s'.current = s.current
  is_regex : s'.mainsearch.is_regex = s.mainsearch.is_regex
  regex : s'.mainsearch.regex = s.mainsearch.regex

/-! ## The walk, in words -/

/-- The names that the walker lets through: not `.`, `..`, `.git`, `.svn`,
and, when there are excludes, not equal to an exclude entry on their first
`LINE_MAX` bytes. -/
def allowed_name (attr : mainsearch_attr_t) (name : List Char) : Prop :=
  name ≠ ".".toList ∧ name ≠ "..".toList ∧ name ≠ ".git".toList ∧ name ≠ ".svn".toList ∧
  (attr.has_excludes = true → ∀ x ∈ attr.firstexcl, x.take LINE_MAX ≠ name.take LINE_MAX)

/-- The file at `path` is reached from the directory `dir`: it is a
non-directory entry with an allowed name, of `dir` or of a directory reached
from `dir` through directory entries with allowed names. -/
inductive reached (env : env_t) (attr : mainsearch_attr_t) : List Char → List Char → Prop where
  | file (dir : List Char) (eps : List dirent) (ep : dirent) :
      env.opendir dir = some eps → ep ∈ eps → ep.d_type &&& DT_DIR = 0 →
      allowed_name attr ep.d_name →
      reached env attr dir (snprintf_path PATH_MAX dir ep.d_name)
  | sub (dir : List Char) (eps : List dirent) (ep : dirent) (path : List Char) :
      env.opendir dir = some eps → ep ∈ eps → ep.d_type &&& DT_DIR ≠ 0 →
      allowed_name attr ep.d_name →
      reached env attr (snprintf_path PATH_MAX dir ep.d_name) path →
      reached env attr dir path

/-- What a completed part of the walk below `dir` guarantees: the frame is
kept, a well-formed buffer stays well-formed, and every file newly passed to
`parse_file` is reached from `dir`. -/
def walk_ok (env : env_t) (dir : List Char) (s s' : session) : Prop :=
  frame s s' ∧
  (well_formed s.mainsearch.entries → well_formed s'.mainsearch.entries) ∧
  ∀ p ∈ s'.parsed, p ∈ s.parsed ∨ reached env s.mainsearch_attr dir p

/-! ## Command line -/

/-- The `case 'x'` of `get_args`: the argument is copied into a new exclude
entry, one trailing slash is removed, and the entry is linked at the end of
the list. -/
def get_args_x (attr : mainsearch_attr_t) (optarg : List Char) : Option mainsearch_attr_t :=
  let path := strncpy optarg LINE_MAX
  if path.length < 1 then none
  else
    let path := if path[path.length - 1]? = some '/' then path.take (path.length - 1) else path
    some { attr with has_excludes := true, firstexcl := attr.firstexcl ++ [path] }

/-! ## Concrete worlds used to run the model -/

/-- The value of `DT_REG` of `<dirent.h>`. -/
def DT_REG : Nat := 8

/-- The scenario of the specification: the root holds `a.c`, whose third line
is `foo(x)`, `b.txt`, and the directory `.git` with a file `config`. -/
def scenario_env : env_t where
  regcomp := fun _ => true
  regexec := fun p text => strstr text p
  fopen := fun path =>
    if path = "./a.c".toList then some "int x;\n\nfoo(x)\n".toList
    else if path = "./b.txt".toList then some "foo\n".toList
    else if path = "./.git/config".toList then some "foo = bar\n".toList
    else none
  opendir := fun path =>
    if path = ".".toList then
      some [⟨"a.c".toList, DT_REG⟩, ⟨"b.txt".toList, DT_REG⟩, ⟨".git".toList, DT_DIR⟩]
    else if path = "./.git".toList then some [⟨"config".toList, DT_REG⟩]
    else none
  lstat_islnk := fun _ => false
  stat_isdir := fun path => path = ".".toList ∨ path = "./.git".toList
  before_path := fun _ k => List.replicate k (Char.ofNat 0)

/-- The session `main` starts the walk of the scenario with: pattern `foo`,
root `.`, extension list `.c`. -/
def scenario_start : session :=
  main_init ⟨false, false, false, [], [], [".c".toList]⟩ "foo".toList ".".toList [] false

/-- A tree with a nested directory: the root holds `src`, which holds `build`,
which holds `x.c`. -/
def nested_env : env_t where
  regcomp := fun _ => true
  regexec := fun p text => strstr text p
  fopen := fun path => if path = "./src/build/x.c".toList then some "foo\n".toList else none
  opendir := fun path =>
    if path = ".".toList then some [⟨"src".toList, DT_DIR⟩]
    else if path = "./src".toList then some [⟨"build".toList, DT_DIR⟩]
    else if path = "./src/build".toList then some [⟨"x.c".toList, DT_REG⟩]
    else none
  lstat_islnk := fun _ => false
  stat_isdir := fun path =>
    path = ".".toList ∨ path = "./src".toList ∨ path = "./src/build".toList
  before_path := fun _ k => List.replicate k (Char.ofNat 0)

/-- A tree as `readdir` lists it, every directory with its entries `.` and
`..`: the root holds `a.c`, whose third line is `foo(x)`, `b.txt`, the
directory `.git` with a file `config`, and the directory `src` with a file
`m.c`, whose first line is `foo`. -/
def listed_env : env_t where
  regcomp := fun _ => true
  regexec := fun p text => strstr text p
  fopen := fun path =>
    if path = "./a.c".toList then some "int x;\n\nfoo(x)\n".toList
    else if path = "./b.txt".toList then some "foo\n".toList
    else if path = "./.git/config".toList then some "foo = bar\n".toList
    else if path = "./src/m.c".toList then some "foo\nbar\n".toList
    else none
  opendir := fun path =>
    if path = ".".toList ∨ path = "./.".toList ∨ path = "./src/..".toList then
      some [⟨".".toList, DT_DIR⟩, ⟨"..".toList, DT_DIR⟩, ⟨"a.c".toList, DT_REG⟩,
        ⟨"b.txt".toList, DT_REG⟩, ⟨".git".toList, DT_DIR⟩, ⟨"src".toList, DT_DIR⟩]
    else if path = "./.git".toList then
      some [⟨".".toList, DT_DIR⟩, ⟨"..".toList, DT_DIR⟩, ⟨"config".toList, DT_REG⟩]
    else if path = "./src".toList ∨ path = "./src/.".toList then
      some [⟨".".toList, DT_DIR⟩, ⟨"..".toList, DT_DIR⟩, ⟨"m.c".toList, DT_REG⟩]
    else none
  lstat_islnk := fun _ => false
  stat_isdir := fun path =>
    path = ".".toList ∨ path = "./.".toList ∨ path = "./src/..".toList ∨
      path = "./.git".toList ∨ path = "./src".toList ∨ path = "./src/.".toList
  before_path := fun _ k => List.replicate k (Char.ofNat 0)

/-- The session for the walk of `nested_env` after `-x ./src/build/`. -/
def nested_start : Option session :=
  match get_args_x ⟨false, false, false, [], [], [".c".toList]⟩ "./src/build/".toList with
  | none => none
  | some attr => some (main_init attr "foo".toList ".".toList [] false)

/-- The lines of a file: the pieces ending with a newline, and the unterminated
rest if there is one.  `acc` is the line being gathered (last byte first). -/
def file_lines_from : List Char → List Char → List (List Char)
  | acc, [] => if acc.isEmpty then [] else [acc.reverse]
  | acc, c :: rest =>
    if c = '\n' then (c :: acc).reverse :: file_lines_from [] rest
    else file_lines_from (c :: acc) rest

/-- The lines of a file, each with its newline. -/
def file_lines (f : List Char) : List (List Char) := file_lines_from [] f

/-- A file whose first line has 300 bytes and whose second line is `foo`. -/
def long_line_file : List Char := List.replicate 300 'a' ++ "\nfoo\n".toList

/-- A world where `long.txt` is `long_line_file`. -/
def long_line_env : env_t where
  regcomp := fun _ => true
  regexec := fun p text => strstr text p
  fopen := fun path => if path = "long.txt".toList then some long_line_file else none
  opendir := fun _ => none
  lstat_islnk := fun _ => false
  stat_isdir := fun _ => false
  before_path := fun _ k => List.replicate k (Char.ofNat 0)

/-- The session `main` starts with for `ngp -r foo long.txt`. -/
def long_line_start : session :=
  main_init ⟨true, false, false, [], [], []⟩ "foo".toList "long.txt".toList [] false

/-! ## Navigation, in words -/

/-- The largest page offset: `count - count % H` when the remainder is not
zero, else `count - H`. -/
def max_offset (count H : Int) : Int :=
  if count % H ≠ 0 then count - count % H else count - H

/-- The transition `pageDown` as the specification words it: the cursor is
chosen by the new offset.  `header i` tells whether entry `i` is a header. -/
def page_down_as_specified (H : Int) (header : Int → Bool) (count offset : Int) : Int × Int :=
  let offset' := min (offset + H) (max_offset count H)
  let cursor' := if offset' = max_offset count H then (count - 1) % H else 0
  (offset', if header (offset' + cursor') then cursor' + 1 else cursor')

/-- The transition `pageDown` with the cursor chosen by the offset before the
call. -/
def page_down_by_old_offset (H : Int) (header : Int → Bool) (count offset : Int) : Int × Int :=
  let offset' := min (offset + H) (max_offset count H)
  let cursor' := if offset = max_offset count H then (count - 1) % H else 0
  (offset', if header (offset' + cursor') then cursor' + 1 else cursor')

/-- The transition `pageUp` as the specification words it: the cursor is
chosen by the new offset. -/
def page_up_as_specified (H : Int) (header : Int → Bool) (offset : Int) : Int × Int :=
  let offset' := max (offset - H) 0
  let cursor' := if offset' = 0 then 0 else H - 1
  (offset', if offset' ≠ 0 ∧ header (offset' + cursor') then cursor' - 1 else cursor')

/-- The transition `pageUp` with the cursor chosen by the offset before the
call. -/
def page_up_by_old_offset (H : Int) (header : Int → Bool) (offset : Int) : Int × Int :=
  let offset' := max (offset - H) 0
  let cursor' := if offset = 0 then 0 else H - 1
  (offset', if offset' ≠ 0 ∧ header (offset' + cursor') then cursor' - 1 else cursor')

/-- The keys of the loop of `main` that move the cursor by one line. -/
inductive nav_key where
  | down
  | up
deriving DecidableEq, Repr

/-- The `case CURSOR_DOWN` and `case CURSOR_UP` of the loop of `main`, on the
pair `(current->index, current->cursor)`. -/
def nav_step (LINES : Int) (stray : Int → Bool) (cur : search_t) (st : Int × Int) :
    nav_key → Int × Int
  | .down => cursor_down LINES stray cur st.1 st.2
  | .up => cursor_up LINES stray cur st.1 st.2

/-- A sequence of key presses, first key first. -/
def nav_run (LINES : Int) (stray : Int → Bool) (cur : search_t) :
    List nav_key → Int × Int → Int × Int
  | [], st => st
  | k :: rest, st => nav_run LINES stray cur rest (nav_step LINES stray cur st k)

/-- A search whose buffer is `entries`, with the navigation state of
`init_searchstruct`. -/
def search_of (entries : List entry_t) : search_t :=
  { init_searchstruct malloc_search_t with entries := entries }

/-- A buffer with two files of one match line each. -/
def two_files : List entry_t :=
  [⟨"a.c".toList, true⟩, ⟨"1:foo\n".toList, false⟩,
   ⟨"b.c".toList, true⟩, ⟨"7:foo\n".toList, false⟩]

/-- A buffer with one file of three match lines. -/
def one_file : List entry_t :=
  [⟨"a.c".toList, true⟩, ⟨"1:foo\n".toList, false⟩,
   ⟨"2:foo\n".toList, false⟩, ⟨"3:foo\n".toList, false⟩]

/-- What holds of the navigation state after any sequence of line moves on a
well-formed buffer: the offset is a page boundary, the cursor is a row of the
page, the entry under the cursor is stored, and it is a header only on the
first page, in the first or the last row. -/
def nav_inv (LINES : Int) (stray : Int → Bool) (cur : search_t) (st : Int × Int) : Prop :=
  LINES ∣ st.1 ∧ 0 ≤ st.1 ∧ 0 ≤ st.2 ∧ st.2 ≤ LINES - 1 ∧
  st.1 + st.2 ≤ (cur.nbentry : Int) - 1 ∧
  (is_file stray cur (st.1 + st.2) = true → st.1 = 0 ∧ (st.2 = 0 ∨ st.2 = LINES - 1))

/-- A primary buffer with two files, one match line each, both containing
`foo` and only the first containing `bar`. -/
def foo_lines : List entry_t :=
  [⟨"./a.c".toList, true⟩, ⟨"1:foo bar\n".toList, false⟩,
   ⟨"./b.c".toList, true⟩, ⟨"7:foo baz\n".toList, false⟩]

/-- A session whose walk has finished with the buffer `foo_lines`; the primary
search is current. -/
def foo_session : session :=
  { scenario_start with
      mainsearch := { scenario_start.mainsearch with
                        entries := foo_lines, nb_lines := 2, status := false } }

/-- The matcher can be applied in session `s`: `current` points to a search
whose compiled expression is set when it is in regex mode. -/
def matcher_ready (s : session) : Prop :=
  ∃ cur, s.deref s.current = some cur ∧ (cur.is_regex = true → ∃ re, cur.regex = some re)

/-- The directories that `lookup_directory` descends into below `dir` are
nested at most `depth` levels deep: the recursion ends within the bound.  As
in `lookup_directory`, only the entries with the `DT_DIR` bit whose name
passes `is_dir_good` are descended into, so the entries `.` and `..` of a
directory do not count. -/
def depth_bounds (env : env_t) (attr : mainsearch_attr_t) : Nat → List Char → Prop
  | 0, _ => False
  | depth + 1, dir =>
    match env.opendir dir with
    | none => True
    | some eps =>
      ∀ ep ∈ eps, ep.d_type &&& DT_DIR ≠ 0 → is_dir_good attr ep.d_name = true →
        depth_bounds env attr depth (snprintf_path PATH_MAX dir ep.d_name)

/-- The conditions under which the walker stays within its objects: the
matcher can be applied, the entry array has not overflowed, and in every file
every read that matches has at least two bytes (`line[strlen(line) - 2]` lies
inside the line). -/
def walk_ready (env : env_t) (pattern options : List Char) (s : session) : Prop :=
  matcher_ready s ∧ s.mainsearch.nbentry ≤ s.mainsearch.size ∧
  ∀ path f, env.fopen path = some f →
    ∀ r ∈ fgets_reads LINE_MAX (LINE_MAX - 1) [] f,
      hit env s pattern options (cstr r) = true → 2 ≤ (cstr r).length

/-! ## A parent buffer that fills the first block of a child -/

/-- The match lines `1:foo` to `n:foo` of one file. -/
def foo_numbered (n : Nat) : List entry_t :=
  (List.range n).map (fun i => ⟨Nat.toDigits 10 (i + 1) ++ ":foo\n".toList, false⟩)

/-- A primary buffer whose first file has 98 match lines and whose second file
has one; every line contains `foo`. -/
def crowded_lines : List entry_t :=
  ⟨"./a.c".toList, true⟩ :: foo_numbered 98 ++
    [⟨"./b.c".toList, true⟩, ⟨"1:foo\n".toList, false⟩]

/-- A session whose walk has finished with the buffer `crowded_lines`; the
primary search is current. -/
def crowded_session : session :=
  { scenario_start with
      mainsearch := { scenario_start.mainsearch with
                        entries := crowded_lines, nb_lines := 99, size := 500, status := false } }

/-! ## The start of `main` -/

/-- One result of `getopt(argc, argv, "hit:refx:")`: the option letter with
its argument, or `other` for a letter that is not in the list. -/
inductive getopt_result where
  | h
  | i
  | t (optarg : List Char)
  | r
  | e
  | f
  | x (optarg : List Char)
  | other
deriving DecidableEq, Repr

/-- How far the program has got: it goes on with the globals `s`, or the
process has ended with the given exit status, after writing `stderr`, in the
state `s`. -/
inductive progress where
  | go (s : session)
  | exits (status : Int) (stderr : List Char) (s : session)
deriving DecidableEq, Repr

/-- The text that `usage` writes to `stderr`. -/
def usage_text : List Char :=
  "usage: ngp [options]... pattern [directory/file]\n\n".toList ++
  "options:\n".toList ++
  " -i : ignore case distinctions in pattern\n".toList ++
  " -r : raw mode\n".toList ++
  " -t type : look for a file extension only\n".toList ++
  " -e : pattern is a regexp\n".toList ++
  " -x folder : exclude directory from search\n".toList ++
  " -f : follow symlinks (default doesn".toList ++ [Char.ofNat 39] ++ "t)\n".toList

/-- The function `usage`: the text, then `exit(-1)`. -/
def usage (s : session) : progress := .exits (-1) usage_text s

/-- The function `get_args`, over the successive results of `getopt`. -/
def get_args : session → List getopt_result → Option progress
  | s, [] => some (.go s)
  | s, opt :: rest =>
    match opt with
    | .h => some (usage s)
    | .i => get_args { s with mainsearch := { s.mainsearch with options := "-i".toList } } rest
    | .t optarg =>
      if s.mainsearch_attr.firstext.isEmpty then none
      else get_args { s with mainsearch_attr :=
                        { s.mainsearch_attr with
                            firstext := s.mainsearch_attr.firstext ++ [strncpy optarg LINE_MAX] } }
             rest
    | .r => get_args { s with mainsearch_attr := { s.mainsearch_attr with raw := true } } rest
    | .e => get_args { s with mainsearch := { s.mainsearch with is_regex := true } } rest
    | .f =>
      get_args { s with mainsearch_attr := { s.mainsearch_attr with follow_symlinks := true } } rest
    | .x optarg =>
      match get_args_x s.mainsearch_attr optarg with
      | none => none
      | some attr => get_args { s with mainsearch_attr := attr } rest
    | .other => some (.exits (-1) [] s)

/-- The label `quit` of `main`: `ncurses_stop`, `clean_all`, `return 0`. -/
def main_quit (stderr : List Char) (s : session) : progress := .exits 0 stderr s

/-- The globals when `main` calls `get_args`: `current = &mainsearch`,
`init_searchstruct` on the zero-initialised `mainsearch`, and the lists read
by `get_config`. -/
def main_globals (firstspec firstext : List (List Char)) : session :=
  { mainsearch := init_searchstruct malloc_search_t
    mainsearch_attr := ⟨false, false, false, [], firstspec, firstext⟩
    heap := []
    current := .main
    parsed := [] }

/-- The function `main` up to the creation of the walker thread.  `firstspec`
and `firstext` are the lists that `get_config` has read, `opts` the results of
`getopt`, `operands` the arguments after the options, and `thread_created`
tells whether `pthread_create` succeeds.  The result `go s` is the state in
which the walker thread starts `lookup_thread` on `&mainsearch`. -/
def main_startup (env : env_t) (firstspec firstext : List (List Char))
    (opts : List getopt_result) (operands : List (List Char)) (thread_created : Bool) :
    Option progress :=
  match get_args (main_globals firstspec firstext) opts with
  | none => none
  | some (.exits status stderr s) => some (.exits status stderr s)
  | some (.go s) =>
    match operands with
    | [] => some (usage s)
    | _ :: _ :: _ :: _ => some (usage s)
    | pattern :: dirs =>
      if LINE_MAX ≤ pattern.length then none
      else
        let s1 := { s with mainsearch := { s.mainsearch with pattern := pattern } }
        match (match dirs with
               | [] => some s1
               | directory :: _ =>
                 if PATH_MAX ≤ directory.length then none
                 else some { s1 with mainsearch := { s1.mainsearch with directory := directory } })
        with
        | none => none
        | some s2 =>
          if s2.mainsearch.is_regex ∧ (is_regex_valid env s2 s2.mainsearch).2 = false then
            some (main_quit "Bad regexp\n".toList s2)
          else
            let s3 := if s2.mainsearch.is_regex then (is_regex_valid env s2 s2.mainsearch).1 else s2
            if thread_created then some (.go s3)
            else some (.exits (-1) "ngp: cannot create thread".toList s3)

/-- A world in which every pattern compiles but `[`, the unterminated bracket
expression. -/
def bracket_env : env_t :=
  { scenario_env with regcomp := fun p => p != "[".toList }

/-- The child of a subsearch for `foo` as the loop of `subsearch` receives it:
`init_searchstruct` on the block, and the pattern. -/
def crowded_child : search_t :=
  { init_searchstruct malloc_search_t with pattern := "foo".toList }

/-- The session `crowded_session` once `is_regex_valid` has accepted the
pattern of `crowded_child`. -/
def crowded_validated : session :=
  (is_regex_valid scenario_env crowded_session crowded_child).1

/-- The child after the loop of `subsearch` has examined the first file of
`crowded_lines` and the header of the second. -/
def crowded_before_line : Option search_t :=
  subsearch_loop scenario_env (fun _ => false) crowded_validated crowded_validated.mainsearch
    (crowded_lines.take 100) 0 crowded_child false []

end Ngp

/-! # Theorems -/

namespace Ngp

/-! ## Lemmas on the shape of a buffer -/

theorem is_header_lt {buf : List entry_t} {i : Nat} (h : is_header buf i) : i < buf.length := by
  unfold is_header at h
  by_contra hc
  rw [List.getElem?_eq_none (by omega)] at h
  simp at h

theorem is_match_line_lt {buf : List entry_t} {i : Nat} (h : is_match_line buf i) :
    i < buf.length := by
  unfold is_match_line at h
  by_contra hc
  rw [List.getElem?_eq_none (by omega)] at h
  simp at h

theorem header_or_match {buf : List entry_t} {i : Nat} (h : i < buf.length) :
    is_header buf i ∨ is_match_line buf i := by
  unfold is_header is_match_line
  rw [List.getElem?_eq_getElem h]
  cases (buf[i]).isfile <;> simp

theorem not_header_of_match {buf : List entry_t} {i : Nat} (h : is_match_line buf i) :
    ¬ is_header buf i := by
  unfold is_header; unfold is_match_line at h
  rw [h]; simp

/-- In a buffer that starts with a header every match line has exactly one
owning header: the nearest header above it. -/
theorem owner_of_starts_with_header (buf : List entry_t) (h0 : buf = [] ∨ is_header buf 0) :
    ∀ i, is_match_line buf i →
      ∃! j, j < i ∧ is_header buf j ∧ ∀ k, j < k → k < i → ¬ is_header buf k := by
  intro i
  induction i with
  | zero =>
    intro hm
    rcases h0 with h | h
    · subst h; simp [is_match_line] at hm
    · exact absurd h (not_header_of_match hm)
  | succ n ih =>
    intro hm
    have hn : n < buf.length := by have := is_match_line_lt hm; omega
    rcases header_or_match hn with hh | hmn
    · refine ⟨n, ⟨by omega, hh, fun k h1 h2 => by omega⟩, ?_⟩
      rintro j ⟨hj1, hj2, hj3⟩
      by_contra hne
      exact hj3 n (by omega) (by omega) hh
    · obtain ⟨j, ⟨hj1, hj2, hj3⟩, huniq⟩ := ih hmn
      refine ⟨j, ⟨by omega, hj2, fun k h1 h2 => ?_⟩, ?_⟩
      · by_cases hk : k = n
        · subst hk; exact not_header_of_match hmn
        · exact hj3 k h1 (by omega)
      · rintro j' ⟨h1, h2, h3⟩
        have hj'n : j' ≠ n := by
          rintro rfl; exact not_header_of_match hmn h2
        exact huniq j' ⟨by omega, h2, fun k hk1 hk2 => h3 k hk1 (by omega)⟩

/-- A buffer is well-formed as soon as it starts with a header (or is empty)
and every header is followed by a match line. -/
theorem well_formed_of (buf : List entry_t) (h0 : buf = [] ∨ is_header buf 0)
    (h1 : ∀ i, is_header buf i → is_match_line buf (i + 1)) : well_formed buf :=
  ⟨h0, owner_of_starts_with_header buf h0, h1⟩

theorem well_formed_of_bounded (buf : List entry_t) (h0 : buf = [] ∨ is_header buf 0)
    (h1 : ∀ i, i < buf.length → is_header buf i → is_match_line buf (i + 1)) :
    well_formed buf :=
  well_formed_of buf h0 (fun i hi => h1 i (is_header_lt hi) hi)

theorem well_formed_nil : well_formed [] :=
  well_formed_of [] (Or.inl rfl) (fun i h => by simp [is_header] at h)

theorem is_header_append_left {buf : List entry_t} (x : List entry_t) {i : Nat}
    (h : i < buf.length) : is_header (buf ++ x) i ↔ is_header buf i := by
  unfold is_header; rw [List.getElem?_append_left h]

theorem is_match_line_append_left {buf : List entry_t} (x : List entry_t) {i : Nat}
    (h : i < buf.length) : is_match_line (buf ++ x) i ↔ is_match_line buf i := by
  unfold is_match_line; rw [List.getElem?_append_left h]

theorem is_header_append_right {buf : List entry_t} (x : List entry_t) {i : Nat}
    (h : buf.length ≤ i) : is_header (buf ++ x) i ↔ is_header x (i - buf.length) := by
  unfold is_header; rw [List.getElem?_append_right h]

theorem is_match_line_append_right {buf : List entry_t} (x : List entry_t) {i : Nat}
    (h : buf.length ≤ i) : is_match_line (buf ++ x) i ↔ is_match_line x (i - buf.length) := by
  unfold is_match_line; rw [List.getElem?_append_right h]

theorem starts_append {buf : List entry_t} (x : List entry_t)
    (h : buf = [] ∨ is_header buf 0) (hx : is_header x 0) :
    buf ++ x = [] ∨ is_header (buf ++ x) 0 := by
  right
  rcases h with h | h
  · subst h; simpa using hx
  · exact (is_header_append_left x (is_header_lt h)).2 h

/-- Appending a header and its first match line keeps a buffer well-formed. -/
theorem well_formed_append_header_line {buf : List entry_t} (h : well_formed buf)
    (f l : List Char) : well_formed (buf ++ [⟨f, true⟩, ⟨l, false⟩]) := by
  apply well_formed_of
  · exact starts_append _ h.starts_with_header (by simp [is_header])
  · intro i hi
    by_cases hlt : i < buf.length
    · have hm := h.header_has_match i ((is_header_append_left _ hlt).1 hi)
      exact (is_match_line_append_left _ (is_match_line_lt hm)).2 hm
    · have hlen := is_header_lt hi
      simp only [List.length_append, List.length_cons, List.length_nil] at hlen
      rw [is_header_append_right _ (by omega)] at hi
      rw [is_match_line_append_right _ (by omega)]
      have hcase : i - buf.length = 0 ∨ i - buf.length = 1 := by omega
      rcases hcase with hc | hc
      · have : i + 1 - buf.length = 1 := by omega
        rw [this]; simp [is_match_line]
      · rw [hc] at hi; simp [is_header] at hi

/-- Appending a match line to a non-empty well-formed buffer keeps it
well-formed. -/
theorem well_formed_append_line {buf : List entry_t} (h : well_formed buf) (hne : buf ≠ [])
    (l : List Char) : well_formed (buf ++ [⟨l, false⟩]) := by
  apply well_formed_of
  · right
    rcases h.starts_with_header with h0 | h0
    · exact absurd h0 hne
    · exact (is_header_append_left _ (is_header_lt h0)).2 h0
  · intro i hi
    by_cases hlt : i < buf.length
    · have hm := h.header_has_match i ((is_header_append_left _ hlt).1 hi)
      exact (is_match_line_append_left _ (is_match_line_lt hm)).2 hm
    · have hlen := is_header_lt hi
      simp only [List.length_append, List.length_cons, List.length_nil] at hlen
      rw [is_header_append_right _ (by omega)] at hi
      have hc : i - buf.length = 0 := by omega
      rw [hc] at hi; simp [is_header] at hi

/-- Appending a header followed by one or more match lines keeps a buffer
well-formed. -/
theorem well_formed_append_file {buf : List entry_t} (h : well_formed buf) (f : List Char)
    (l : List entry_t) (hne : l ≠ []) (hl : ∀ e ∈ l, e.isfile = false) :
    well_formed (buf ++ ⟨f, true⟩ :: l) := by
  apply well_formed_of
  · exact starts_append _ h.starts_with_header (by simp [is_header])
  · intro i hi
    by_cases hlt : i < buf.length
    · have hm := h.header_has_match i ((is_header_append_left _ hlt).1 hi)
      exact (is_match_line_append_left _ (is_match_line_lt hm)).2 hm
    · rw [is_header_append_right _ (by omega)] at hi
      rw [is_match_line_append_right _ (by omega)]
      by_cases hc : i - buf.length = 0
      · have : i + 1 - buf.length = 1 := by omega
        rw [this]
        cases l with
        | nil => exact absurd rfl hne
        | cons e rest =>
          have := hl e (List.mem_cons_self _ _)
          simp [is_match_line, this]
      · exfalso
        obtain ⟨j, hj⟩ : ∃ j, i - buf.length = j + 1 := ⟨i - buf.length - 1, by omega⟩
        rw [hj] at hi
        unfold is_header at hi
        rw [List.getElem?_cons_succ] at hi
        cases hg : l[j]? with
        | none => rw [hg] at hi; simp at hi
        | some e =>
          rw [hg] at hi
          have hmem : e ∈ l := List.getElem?_mem hg
          have := hl e hmem
          simp [this] at hi

theorem two_files_well_formed : well_formed two_files :=
  well_formed_of_bounded two_files (by decide) (by decide)

theorem one_file_well_formed : well_formed one_file :=
  well_formed_of_bounded one_file (by decide) (by decide)


/-! ## What `parse_file` appends -/

theorem frame_refl (s : session) : frame s s := ⟨rfl, rfl, rfl, rfl, rfl⟩

theorem frame_trans {a b c : session} (h1 : frame a b) (h2 : frame b c) : frame a c :=
  ⟨h2.attr.trans h1.attr, h2.heap.trans h1.heap, h2.current.trans h1.current,
   h2.is_regex.trans h1.is_regex, h2.regex.trans h1.regex⟩

theorem parser_frame (env : env_t) {s s' : session} (h : frame s s')
    (pattern options text : List Char) :
    parser env s' pattern options text = parser env s pattern options text := by
  unfold parser regex
  rw [h.current]
  cases hc : s.current with
  | main => simp only [session.deref, h.is_regex, h.regex]
  | node k => simp only [session.deref, h.heap]

theorem hit_frame (env : env_t) {s s' : session} (h : frame s s') (pattern options : List Char) :
    ∀ t, hit env s' pattern options t = hit env s pattern options t := by
  intro t; unfold hit; rw [parser_frame env h]

theorem store_some {t t' : search_t} {e : entry_t} (h : store t e = some t') :
    t' = { t with entries := t.entries ++ [e] } := by
  unfold store at h
  split at h
  · exact (Option.some.inj h).symm
  · cases h

theorem mainsearch_add_file_some {s s' : session} {file : List Char}
    (h : mainsearch_add_file s file = some s') :
    frame s s' ∧ s'.parsed = s.parsed ∧
      s'.mainsearch.entries = s.mainsearch.entries ++ [⟨strncpy file PATH_MAX, true⟩] := by
  unfold mainsearch_add_file at h
  split at h
  · cases h
  · rename_i m hm
    have := store_some hm
    cases h
    subst this
    refine ⟨⟨rfl, rfl, rfl, ?_, ?_⟩, rfl, ?_⟩ <;>
      (unfold check_alloc; split <;> rfl)

theorem mainsearch_add_line_some {s s' : session} {text : List Char}
    (h : mainsearch_add_line s text = some s') :
    frame s s' ∧ s'.parsed = s.parsed ∧
      s'.mainsearch.entries = s.mainsearch.entries ++ [⟨strncpy text LINE_MAX, false⟩] := by
  unfold mainsearch_add_line at h
  split at h
  · cases h
  · rename_i m hm
    have := store_some hm
    cases h
    subst this
    refine ⟨⟨rfl, rfl, rfl, ?_, ?_⟩, rfl, ?_⟩ <;>
      (unfold check_alloc; split <;> rfl)

theorem strip_cr_some {text kept : List Char} (h : strip_cr text = some kept) :
    kept = kept_text text ∧ 2 ≤ text.length := by
  unfold strip_cr at h
  unfold kept_text
  split at h
  · cases h
  · rename_i hlen
    have h2 : 2 ≤ text.length := by omega
    refine ⟨?_, h2⟩
    split at h
    · rename_i hcr
      cases h
      simp [h2, hcr]
    · rename_i hcr
      cases h
      simp [hcr]

theorem match_entries_nil (h : List Char → Bool) (n : Nat) : match_entries h n [] = [] := rfl

theorem match_entries_cons (h : List Char → Bool) (n : Nat) (buf : List Char)
    (rest : List (List Char)) :
    match_entries h n (buf :: rest) =
      if h (cstr buf) then match_entry n (cstr buf) :: match_entries h (n + 1) rest
      else match_entries h (n + 1) rest := by
  unfold match_entries
  simp only [List.enumFrom_cons, List.filterMap_cons]
  split <;> simp_all

theorem match_entries_congr {h1 h2 : List Char → Bool} (heq : ∀ t, h1 t = h2 t) (n : Nat)
    (reads : List (List Char)) : match_entries h1 n reads = match_entries h2 n reads := by
  have : h1 = h2 := funext heq
  rw [this]

theorem match_entries_isfile (h : List Char → Bool) (reads : List (List Char)) :
    ∀ (n : Nat) (e : entry_t), e ∈ match_entries h n reads → e.isfile = false := by
  induction reads with
  | nil => intro n e he; simp [match_entries_nil] at he
  | cons buf rest ih =>
    intro n e he
    rw [match_entries_cons] at he
    split at he
    · rcases List.mem_cons.1 he with h1 | h1
      · subst h1; rfl
      · exact ih (n + 1) e h1
    · exact ih (n + 1) e he

theorem well_formed_append_file_entries {buf : List entry_t} (h : well_formed buf)
    (ht : List Char → Bool) (file : List Char) (reads : List (List Char)) :
    well_formed (buf ++ file_entries ht file reads) := by
  unfold file_entries
  split
  · simpa using h
  · rename_i l hne
    exact well_formed_append_file h _ _ (by simpa using hne)
      (fun e he => match_entries_isfile ht reads 1 e he)

theorem stored_text (number : Nat) (text : List Char) :
    (⟨strncpy (snprintf_number_line LINE_MAX number (kept_text text)) LINE_MAX, false⟩ : entry_t)
      = match_entry number text := by
  unfold match_entry strncpy snprintf_number_line LINE_MAX
  simp [List.take_take]

/-- What the loop of `parse_file` appends to the buffer. -/
theorem parse_loop_entries (env : env_t) (file pattern options : List Char) :
    ∀ (reads : List (List Char)) (s s' : session) (first : Bool) (n : Nat),
      parse_loop env file pattern options reads s first n = some s' →
      frame s s' ∧ s'.parsed = s.parsed ∧
      s'.mainsearch.entries = s.mainsearch.entries ++
        ((if first = true ∧ match_entries (hit env s pattern options) n reads ≠ []
          then [⟨strncpy file PATH_MAX, true⟩] else []) ++
         match_entries (hit env s pattern options) n reads) := by
  intro reads
  induction reads with
  | nil =>
    intro s s' first n h
    simp only [parse_loop] at h
    cases h
    simp [match_entries_nil, frame_refl]
  | cons buf rest ih =>
    intro s s' first n h
    rw [parse_loop] at h
    rw [match_entries_cons]
    cases hp : parser env s pattern options (cstr buf) with
    | none => rw [hp] at h; cases h
    | some b =>
      rw [hp] at h
      cases b with
      | false =>
        simp only at h
        have hh : hit env s pattern options (cstr buf) = false := by simp [hit, hp]
        rw [hh]
        simpa using ih s s' first (n + 1) h
      | true =>
        simp only at h
        have hh : hit env s pattern options (cstr buf) = true := by simp [hit, hp]
        rw [hh]
        cases h1 : (if first = true then mainsearch_add_file s file else some s) with
        | none => rw [h1] at h; cases h
        | some s1 =>
          rw [h1] at h
          simp only at h
          cases h2 : strip_cr (cstr buf) with
          | none => rw [h2] at h; cases h
          | some kept =>
            rw [h2] at h
            simp only at h
            cases h3 : mainsearch_add_line s1
                (snprintf_number_line LINE_MAX n kept) with
            | none => rw [h3] at h; cases h
            | some s2 =>
              rw [h3] at h
              simp only at h
              obtain ⟨hf3, hp3, he3⟩ := mainsearch_add_line_some h3
              obtain ⟨hk, _⟩ := strip_cr_some h2
              subst hk
              rw [stored_text] at he3
              obtain ⟨hfr, hpr, her⟩ := ih s2 s' false (n + 1) h
              have hs1 : frame s s1 ∧ s1.parsed = s.parsed ∧
                  s1.mainsearch.entries = s.mainsearch.entries ++
                    (if first = true then [⟨strncpy file PATH_MAX, true⟩] else []) := by
                cases first with
                | true =>
                  simp only [if_true] at h1
                  simpa using mainsearch_add_file_some h1
                | false =>
                  simp only [Bool.false_eq_true, if_false] at h1
                  cases h1
                  simp [frame_refl]
              obtain ⟨hf1, hp1, he1⟩ := hs1
              have hf2 : frame s s2 := frame_trans hf1 hf3
              refine ⟨frame_trans hf2 hfr, by rw [hpr, hp3, hp1], ?_⟩
              rw [her, he3, he1]
              rw [match_entries_congr (hit_frame env hf2 pattern options)]
              simp

/-- What `parse_file` does to the session: the call is logged, and the buffer
receives the entries of the file. -/
theorem parse_file_some {env : env_t} {s s' : session} {file pattern options : List Char}
    (h : parse_file env s file pattern options = some s') :
    frame s s' ∧ s'.parsed = s.parsed ++ [file] ∧
      s'.mainsearch.entries = s.mainsearch.entries ++
        (match env.fopen file with
         | none => []
         | some f => file_entries (hit env s pattern options) file
                       (fgets_reads LINE_MAX (LINE_MAX - 1) [] f)) := by
  unfold parse_file at h
  have hfr : frame s { s with parsed := s.parsed ++ [file] } := ⟨rfl, rfl, rfl, rfl, rfl⟩
  cases hf : env.fopen file with
  | none =>
    rw [hf] at h
    simp only at h
    cases h
    exact ⟨hfr, rfl, by simp⟩
  | some f =>
    rw [hf] at h
    simp only at h
    obtain ⟨h1, h2, h3⟩ := parse_loop_entries env file pattern options _ _ _ _ _ h
    refine ⟨frame_trans hfr h1, h2, ?_⟩
    rw [h3, match_entries_congr (hit_frame env hfr pattern options)]
    simp only
    unfold file_entries strncpy
    cases hm : match_entries (hit env s pattern options) 1
        (fgets_reads LINE_MAX (LINE_MAX - 1) [] f) with
    | nil => simp
    | cons e l => simp

theorem parse_file_keeps_shape {env : env_t} {s s' : session} {file pattern options : List Char}
    (h : parse_file env s file pattern options = some s')
    (hw : well_formed s.mainsearch.entries) : well_formed s'.mainsearch.entries := by
  obtain ⟨_, _, he⟩ := parse_file_some h
  rw [he]
  cases env.fopen file with
  | none => simpa using hw
  | some f => exact well_formed_append_file_entries hw _ _ _

theorem file_lines_from_head (rest : List Char) :
    ∀ (acc : List Char), acc ≠ [] →
      ∃ l ls, file_lines_from acc rest = l :: ls ∧ acc.length ≤ l.length := by
  induction rest with
  | nil =>
    intro acc hacc
    refine ⟨acc.reverse, [], ?_, by simp⟩
    simp [file_lines_from, hacc]
  | cons c r ih =>
    intro acc hacc
    rw [file_lines_from]
    split
    · exact ⟨_, _, rfl, by simp⟩
    · obtain ⟨l, ls, h1, h2⟩ := ih (c :: acc) (by simp)
      exact ⟨l, ls, h1, by simp at h2; omega⟩

theorem file_lines_from_head_longer (c : Char) (r acc : List Char) :
    ∃ l ls, file_lines_from acc (c :: r) = l :: ls ∧ acc.length + 1 ≤ l.length := by
  rw [file_lines_from]
  split
  · exact ⟨_, _, rfl, by simp⟩
  · obtain ⟨l, ls, h1, h2⟩ := file_lines_from_head r (c :: acc) (by simp)
    exact ⟨l, ls, h1, by simpa using h2⟩

/-- On a file whose lines all fit one read, the reads of `fgets` are the
lines. -/
theorem fgets_reads_eq_file_lines (rest : List Char) :
    ∀ (acc : List Char) (room : Nat), room + acc.length = 255 →
      (∀ l ∈ file_lines_from acc rest, l.length ≤ 255) →
      fgets_reads LINE_MAX room acc rest = file_lines_from acc rest := by
  induction rest with
  | nil => intro acc room _ _; simp [fgets_reads, file_lines_from]
  | cons c r ih =>
    intro acc room hroom hshort
    rw [fgets_reads]
    by_cases hc : c = '\n'
    · rw [file_lines_from] at hshort ⊢
      simp only [hc, true_or, if_true] at hshort ⊢
      rw [ih [] (LINE_MAX - 1) (by simp [LINE_MAX])
        (fun l hl => hshort l (List.mem_cons_of_mem _ hl))]
    · by_cases hr : room ≤ 1
      · simp only [hc, hr, or_true, if_true]
        cases r with
        | nil =>
          simp [fgets_reads, file_lines_from, hc]
        | cons c2 r2 =>
          exfalso
          rw [file_lines_from] at hshort
          simp only [hc, if_false] at hshort
          obtain ⟨l, ls, h1, h2⟩ := file_lines_from_head_longer c2 r2 (c :: acc)
          have := hshort l (by rw [h1]; exact List.mem_cons_self _ _)
          simp at h2
          omega
      · simp only [hc, hr, or_false, if_false]
        rw [file_lines_from]
        simp only [hc, if_false] at hshort ⊢
        have hs : ∀ l ∈ file_lines_from (c :: acc) r, l.length ≤ 255 := by
          intro l hl
          apply hshort
          rw [file_lines_from]
          simpa [hc] using hl
        exact ih (c :: acc) (room - 1) (by simp; omega) hs


/-! ## When `parse_file` completes -/

theorem parser_ready (env : env_t) {s : session} (h : matcher_ready s)
    (pattern options text : List Char) :
    ∃ b, parser env s pattern options text = some b := by
  obtain ⟨cur, hc, hre⟩ := h
  unfold parser regex
  rw [hc]
  simp only
  cases hr : cur.is_regex with
  | true =>
    obtain ⟨re, hre2⟩ := hre hr
    simp only [hre2, if_true]
    exact ⟨_, rfl⟩
  | false =>
    simp only [Bool.false_eq_true, if_false]
    by_cases hi : strstr options "-i".toList = true
    · rw [if_pos hi]; exact ⟨_, rfl⟩
    · rw [if_neg hi]; exact ⟨_, rfl⟩

theorem matcher_ready_frame {s s' : session} (hf : frame s s') (h : matcher_ready s) :
    matcher_ready s' := by
  obtain ⟨cur, hc, hre⟩ := h
  unfold matcher_ready
  rw [hf.current]
  cases hcur : s.current with
  | main =>
    rw [hcur] at hc
    simp only [session.deref] at hc ⊢
    cases hc
    exact ⟨_, rfl, fun h => by rw [hf.regex]; exact hre (by rw [← hf.is_regex]; exact h)⟩
  | node k =>
    rw [hcur] at hc
    simp only [session.deref] at hc ⊢
    rw [hf.heap]
    exact ⟨cur, hc, hre⟩

theorem store_defined (t : search_t) (e : entry_t) (k : Nat) (hk : 0 < k)
    (hcap : t.nbentry ≤ t.size) :
    ∃ t', store (check_alloc t k) e = some t' ∧ t'.nbentry ≤ t'.size := by
  unfold store check_alloc search_t.nbentry at *
  by_cases h : t.entries.length ≥ t.size
  · simp only [h, if_true]
    rw [if_pos (by omega)]
    exact ⟨_, rfl, by simp; omega⟩
  · simp only [h, if_false]
    rw [if_pos (by omega)]
    exact ⟨_, rfl, by simp; omega⟩

theorem mainsearch_add_file_defined (s : session) (file : List Char)
    (hcap : s.mainsearch.nbentry ≤ s.mainsearch.size) :
    ∃ s', mainsearch_add_file s file = some s' ∧ s'.mainsearch.nbentry ≤ s'.mainsearch.size := by
  obtain ⟨t', h1, h2⟩ := store_defined s.mainsearch ⟨strncpy file PATH_MAX, true⟩ 500
    (by decide) hcap
  unfold mainsearch_add_file
  rw [h1]
  exact ⟨_, rfl, h2⟩

theorem mainsearch_add_line_defined (s : session) (text : List Char)
    (hcap : s.mainsearch.nbentry ≤ s.mainsearch.size) :
    ∃ s', mainsearch_add_line s text = some s' ∧ s'.mainsearch.nbentry ≤ s'.mainsearch.size := by
  obtain ⟨t', h1, h2⟩ := store_defined s.mainsearch ⟨strncpy text LINE_MAX, false⟩ 500
    (by decide) hcap
  unfold mainsearch_add_line
  rw [h1]
  exact ⟨_, rfl, h2⟩

/-- The loop of `parse_file` runs to its end when the matcher can be applied,
the entry array has not overflowed, and every read that matches has at least
two bytes. -/
theorem parse_loop_defined (env : env_t) (file pattern options : List Char) :
    ∀ (reads : List (List Char)) (s : session) (first : Bool) (n : Nat),
      matcher_ready s → s.mainsearch.nbentry ≤ s.mainsearch.size →
      (∀ r ∈ reads, hit env s pattern options (cstr r) = true → 2 ≤ (cstr r).length) →
      ∃ s', parse_loop env file pattern options reads s first n = some s' ∧
        s'.mainsearch.nbentry ≤ s'.mainsearch.size := by
  intro reads
  induction reads with
  | nil => intro s first n _ hcap _; exact ⟨s, rfl, hcap⟩
  | cons buf rest ih =>
    intro s first n hready hcap hlen
    rw [parse_loop]
    obtain ⟨b, hb⟩ := parser_ready env hready pattern options (cstr buf)
    rw [hb]
    cases b with
    | false =>
      exact ih s first (n + 1) hready hcap
        (fun r hr => hlen r (List.mem_cons_of_mem _ hr))
    | true =>
      simp only
      have h2 : 2 ≤ (cstr buf).length :=
        hlen buf (List.mem_cons_self _ _) (by simp [hit, hb])
      obtain ⟨s1, hs1, hf1, hcap1⟩ : ∃ s1,
          (if first = true then mainsearch_add_file s file else some s) = some s1 ∧
          frame s s1 ∧ s1.mainsearch.nbentry ≤ s1.mainsearch.size := by
        cases first with
        | true =>
          obtain ⟨s1, h1, h3⟩ := mainsearch_add_file_defined s file hcap
          exact ⟨s1, by simpa using h1, (mainsearch_add_file_some h1).1, h3⟩
        | false => exact ⟨s, by simp, frame_refl s, hcap⟩
      rw [hs1]
      simp only
      obtain ⟨kept, hkept⟩ : ∃ kept, strip_cr (cstr buf) = some kept := by
        unfold strip_cr
        rw [if_neg (by omega)]
        split <;> exact ⟨_, rfl⟩
      rw [hkept]
      simp only
      obtain ⟨s2, hs2, hcap2⟩ := mainsearch_add_line_defined s1
        (snprintf_number_line LINE_MAX n kept) hcap1
      rw [hs2]
      simp only
      have hf2 : frame s s2 := frame_trans hf1 (mainsearch_add_line_some hs2).1
      exact ih s2 false (n + 1) (matcher_ready_frame hf2 hready) hcap2
        (fun r hr hh => hlen r (List.mem_cons_of_mem _ hr)
          (by rw [← hit_frame env hf2 pattern options]; exact hh))

theorem walk_ready_frame {env : env_t} {pattern options : List Char} {s s' : session}
    (h : walk_ready env pattern options s) (hf : frame s s')
    (hcap : s'.mainsearch.nbentry ≤ s'.mainsearch.size) : walk_ready env pattern options s' :=
  ⟨matcher_ready_frame hf h.1, hcap, fun path f hop r hr hh =>
    h.2.2 path f hop r hr (by rw [← hit_frame env hf pattern options]; exact hh)⟩

theorem parse_file_defined (env : env_t) (s : session) (file pattern options : List Char)
    (h : walk_ready env pattern options s) :
    ∃ s', parse_file env s file pattern options = some s' ∧
      walk_ready env pattern options s' := by
  have hfr : frame s { s with parsed := s.parsed ++ [file] } := ⟨rfl, rfl, rfl, rfl, rfl⟩
  have h0 := walk_ready_frame h hfr h.2.1
  unfold parse_file
  cases hop : env.fopen file with
  | none => exact ⟨_, rfl, h0⟩
  | some f =>
    simp only
    obtain ⟨s', hs', hcap⟩ := parse_loop_defined env file pattern options _ _ true 1 h0.1 h0.2.1
      (h0.2.2 file f hop)
    exact ⟨s', hs', walk_ready_frame h0 (parse_loop_entries env file pattern options _ _ _ _ _ hs').1
      hcap⟩


/-! ## The walk -/

theorem lookup_file_loop_some {env : env_t} {s s' : session} {file pattern options : List Char} :
    ∀ (exts : List (List Char)),
      lookup_file_loop env s file pattern options exts = some s' →
      s' = s ∨ parse_file env s file pattern options = some s' := by
  intro exts
  induction exts with
  | nil => intro h; simp only [lookup_file_loop] at h; cases h; exact Or.inl rfl
  | cons ext rest ih =>
    intro h
    rw [lookup_file_loop] at h
    split at h
    · exact Or.inr h
    · exact ih h

theorem lookup_file_some {env : env_t} {s s' : session} {file pattern options : List Char}
    (h : lookup_file env s file pattern options = some s') :
    s' = s ∨ parse_file env s file pattern options = some s' := by
  unfold lookup_file at h
  split at h
  · exact Or.inr h
  · split at h
    · exact Or.inr h
    · exact lookup_file_loop_some _ h

theorem is_dir_good_iff (attr : mainsearch_attr_t) (name : List Char) :
    is_dir_good attr name = true ↔ allowed_name attr name := by
  unfold is_dir_good allowed_name strncmp_eq
  have hany : (attr.firstexcl.any fun path => List.take LINE_MAX path == List.take LINE_MAX name)
      = true ↔ ∃ x ∈ attr.firstexcl, x.take LINE_MAX = name.take LINE_MAX := by
    simp [List.any_eq_true]
  split
  · rename_i hc
    obtain ⟨x, hx1, hx2⟩ := hany.1 hc.2
    constructor
    · intro h; cases h
    · intro h; exact absurd hx2 (h.2.2.2.2 hc.1 x hx1)
  · rename_i hc
    have hno : attr.has_excludes = true →
        ∀ x ∈ attr.firstexcl, x.take LINE_MAX ≠ name.take LINE_MAX := by
      intro hx x hx1 hx2
      exact hc ⟨hx, hany.2 ⟨x, hx1, hx2⟩⟩
    simp only [Bool.and_eq_true, bne_iff_ne, ne_eq, and_assoc]
    constructor
    · rintro ⟨h1, h2, h3, h4⟩; exact ⟨h1, h2, h3, h4, hno⟩
    · rintro ⟨h1, h2, h3, h4, _⟩; exact ⟨h1, h2, h3, h4⟩

theorem walk_ok_refl (env : env_t) (dir : List Char) (s : session) : walk_ok env dir s s :=
  ⟨frame_refl s, id, fun _ hp => Or.inl hp⟩

theorem walk_ok_trans {env : env_t} {dir : List Char} {a b c : session}
    (h1 : walk_ok env dir a b) (h2 : walk_ok env dir b c) : walk_ok env dir a c := by
  refine ⟨frame_trans h1.1 h2.1, fun hw => h2.2.1 (h1.2.1 hw), fun p hp => ?_⟩
  rcases h2.2.2 p hp with h | h
  · exact h1.2.2 p h
  · right; rw [← h1.1.attr]; exact h

/-- The loop over the entries of a directory, given the guarantee for the
recursive calls. -/
theorem readdir_loop_ok (env : env_t) (descend : session → List Char → Option session)
    (dir pattern options : List Char) (all : List dirent) (hall : env.opendir dir = some all)
    (hdesc : ∀ s d s', descend s d = some s' → walk_ok env d s s') :
    ∀ (eps : List dirent), (∀ ep ∈ eps, ep ∈ all) → ∀ (s s' : session),
      readdir_loop env descend dir pattern options eps s = some s' → walk_ok env dir s s' := by
  intro eps
  induction eps with
  | nil =>
    intro _ s s' h
    simp only [readdir_loop] at h
    cases h
    exact walk_ok_refl env dir s
  | cons ep rest ih =>
    intro hmem s s' h
    rw [readdir_loop] at h
    have hep : ep ∈ all := hmem ep (List.mem_cons_self _ _)
    split at h
    · cases h
    · rename_i s1 h1
      have hs1 : walk_ok env dir s s1 := by
        split at h1
        · rename_i hc
          split at h1
          · rcases lookup_file_some h1 with heq | hpf
            · rw [heq]; exact walk_ok_refl env dir s
            · obtain ⟨hf, hp, _⟩ := parse_file_some hpf
              refine ⟨hf, parse_file_keeps_shape hpf, fun p hpm => ?_⟩
              rw [hp] at hpm
              rcases List.mem_append.1 hpm with hm | hm
              · exact Or.inl hm
              · right
                have : p = snprintf_path PATH_MAX dir ep.d_name := by simpa using hm
                subst this
                exact reached.file dir all ep hall hep hc.1 ((is_dir_good_iff _ _).1 hc.2)
          · cases h1; exact walk_ok_refl env dir s
        · cases h1; exact walk_ok_refl env dir s
      split at h
      · cases h
      · rename_i s2 h2
        have hs2 : walk_ok env dir s1 s2 := by
          split at h2
          · rename_i hc
            obtain ⟨hf, hw, hp⟩ := hdesc _ _ _ h2
            refine ⟨hf, hw, fun p hpm => ?_⟩
            rcases hp p hpm with hm | hm
            · exact Or.inl hm
            · right
              exact reached.sub dir all ep p hall hep hc.1 ((is_dir_good_iff _ _).1 hc.2) hm
          · cases h2; exact walk_ok_refl env dir s1
        exact walk_ok_trans (walk_ok_trans hs1 hs2)
          (ih (fun e he => hmem e (List.mem_cons_of_mem _ he)) s2 s' h)

theorem lookup_directory_ok (env : env_t) (pattern options : List Char) :
    ∀ (depth : Nat) (s : session) (dir : List Char) (s' : session),
      lookup_directory env pattern options depth s dir = some s' → walk_ok env dir s s' := by
  intro depth
  induction depth with
  | zero => intro s dir s' h; simp only [lookup_directory] at h; cases h
  | succ d ih =>
    intro s dir s' h
    rw [lookup_directory] at h
    cases ho : env.opendir dir with
    | none => rw [ho] at h; cases h; exact walk_ok_refl env dir s
    | some eps =>
      rw [ho] at h
      exact readdir_loop_ok env _ dir pattern options eps ho (fun s d s' hd => ih s d s' hd)
        eps (fun _ he => he) s s' h

theorem lookup_thread_ok {env : env_t} {depth : Nat} {s s' : session}
    (h : lookup_thread env depth s = some s') :
    (well_formed s.mainsearch.entries → well_formed s'.mainsearch.entries) ∧
    ∀ p ∈ s'.parsed, p ∈ s.parsed ∨
      (env.stat_isdir s.mainsearch.directory = false ∧ p = s.mainsearch.directory) ∨
      (env.stat_isdir s.mainsearch.directory = true ∧
        reached env s.mainsearch_attr s.mainsearch.directory p) := by
  unfold lookup_thread at h
  simp only at h
  split at h
  · cases h
  · rename_i s1 h1
    cases h
    simp only
    split at h1
    · rename_i hdir
      rcases lookup_file_some h1 with heq | hpf
      · rw [heq]; exact ⟨id, fun p hp => Or.inl hp⟩
      · obtain ⟨_, hp, _⟩ := parse_file_some hpf
        refine ⟨parse_file_keeps_shape hpf, fun p hpm => ?_⟩
        rw [hp] at hpm
        rcases List.mem_append.1 hpm with hm | hm
        · exact Or.inl hm
        · right; left
          exact ⟨by simpa using hdir, by simpa using hm⟩
    · rename_i hdir
      obtain ⟨_, hw, hp⟩ := lookup_directory_ok env _ _ _ _ _ _ h1
      refine ⟨hw, fun p hpm => ?_⟩
      rcases hp p hpm with hm | hm
      · exact Or.inl hm
      · right; right
        exact ⟨by simpa using hdir, hm⟩

theorem lookup_file_loop_defined (env : env_t) (s : session) (file pattern options : List Char)
    (h : walk_ready env pattern options s) :
    ∀ (exts : List (List Char)),
      ∃ s', lookup_file_loop env s file pattern options exts = some s' ∧
        walk_ready env pattern options s' := by
  intro exts
  induction exts with
  | nil => exact ⟨s, rfl, h⟩
  | cons ext rest ih =>
    rw [lookup_file_loop]
    split
    · exact parse_file_defined env s file pattern options h
    · exact ih

theorem lookup_file_defined (env : env_t) (s : session) (file pattern options : List Char)
    (h : walk_ready env pattern options s) :
    ∃ s', lookup_file env s file pattern options = some s' ∧
      walk_ready env pattern options s' := by
  unfold lookup_file
  split
  · exact parse_file_defined env s file pattern options h
  · split
    · exact parse_file_defined env s file pattern options h
    · exact lookup_file_loop_defined env s file pattern options h _

theorem lookup_file_frame {env : env_t} {s s' : session} {file pattern options : List Char}
    (h : lookup_file env s file pattern options = some s') : frame s s' := by
  rcases lookup_file_some h with h1 | h1
  · rw [h1]; exact frame_refl s
  · exact (parse_file_some h1).1

theorem readdir_loop_defined (env : env_t) (descend : session → List Char → Option session)
    (dir pattern options : List Char) (attr : mainsearch_attr_t) :
    ∀ (eps : List dirent),
      (∀ ep ∈ eps, ep.d_type &&& DT_DIR ≠ 0 → is_dir_good attr ep.d_name = true →
        ∀ s, walk_ready env pattern options s → s.mainsearch_attr = attr →
        ∃ s', descend s (snprintf_path PATH_MAX dir ep.d_name) = some s' ∧
          walk_ready env pattern options s' ∧ s'.mainsearch_attr = attr) →
      ∀ (s : session), walk_ready env pattern options s → s.mainsearch_attr = attr →
        ∃ s', readdir_loop env descend dir pattern options eps s = some s' ∧
          walk_ready env pattern options s' ∧ s'.mainsearch_attr = attr := by
  intro eps
  induction eps with
  | nil => intro _ s h ha; exact ⟨s, rfl, h, ha⟩
  | cons ep rest ih =>
    intro hdesc s h ha
    rw [readdir_loop]
    obtain ⟨s1, hs1, hr1, ha1⟩ : ∃ s1,
        (if ep.d_type &&& DT_DIR = 0 ∧ is_dir_good s.mainsearch_attr ep.d_name = true then
           (if ¬ env.lstat_islnk (snprintf_path PATH_MAX dir ep.d_name) = true ∨
                s.mainsearch_attr.follow_symlinks = true then
              lookup_file env s (snprintf_path PATH_MAX dir ep.d_name) pattern options
            else some s)
         else some s) = some s1 ∧ walk_ready env pattern options s1 ∧
          s1.mainsearch_attr = attr := by
      split
      · split
        · obtain ⟨s1, hs1, hr1⟩ := lookup_file_defined env s
            (snprintf_path PATH_MAX dir ep.d_name) pattern options h
          exact ⟨s1, hs1, hr1, by rw [(lookup_file_frame hs1).attr]; exact ha⟩
        · exact ⟨s, rfl, h, ha⟩
      · exact ⟨s, rfl, h, ha⟩
    simp only [hs1]
    obtain ⟨s2, hs2, hr2, ha2⟩ : ∃ s2,
        (if ep.d_type &&& DT_DIR ≠ 0 ∧ is_dir_good s1.mainsearch_attr ep.d_name = true then
           descend s1 (snprintf_path PATH_MAX dir ep.d_name)
         else some s1) = some s2 ∧ walk_ready env pattern options s2 ∧
          s2.mainsearch_attr = attr := by
      split
      · rename_i hc
        exact hdesc ep (List.mem_cons_self _ _) hc.1 (by rw [← ha1]; exact hc.2) s1 hr1 ha1
      · exact ⟨s1, rfl, hr1, ha1⟩
    simp only [hs2]
    exact ih (fun e he => hdesc e (List.mem_cons_of_mem _ he)) s2 hr2 ha2

theorem lookup_directory_defined (env : env_t) (pattern options : List Char)
    (attr : mainsearch_attr_t) :
    ∀ (depth : Nat) (dir : List Char), depth_bounds env attr depth dir →
      ∀ (s : session), walk_ready env pattern options s → s.mainsearch_attr = attr →
        ∃ s', lookup_directory env pattern options depth s dir = some s' ∧
          walk_ready env pattern options s' ∧ s'.mainsearch_attr = attr := by
  intro depth
  induction depth with
  | zero => intro dir hb; exact absurd hb (by simp [depth_bounds])
  | succ d ih =>
    intro dir hb s h ha
    rw [lookup_directory]
    rw [depth_bounds] at hb
    cases hop : env.opendir dir with
    | none => exact ⟨s, rfl, h, ha⟩
    | some eps =>
      rw [hop] at hb
      simp only at hb ⊢
      exact readdir_loop_defined env _ dir pattern options attr eps
        (fun ep he hd hg s1 h1 ha1 => ih _ (hb ep he hd hg) s1 h1 ha1) s h ha

/-- The walk completes: `lookup_thread` returns a session when the matcher can
be applied, the entry array has not overflowed, every matching read has at
least two bytes, and the directories that the walk descends into are nested at
most `depth` levels deep. -/
theorem lookup_thread_defined (env : env_t) (depth : Nat) (s : session)
    (hready : walk_ready env s.mainsearch.pattern s.mainsearch.options s)
    (hdepth : env.stat_isdir s.mainsearch.directory = true →
      depth_bounds env s.mainsearch_attr depth s.mainsearch.directory) :
    ∃ s', lookup_thread env depth s = some s' := by
  unfold lookup_thread
  simp only
  by_cases hd : env.stat_isdir s.mainsearch.directory = true
  · obtain ⟨s1, hs1, _⟩ := lookup_directory_defined env s.mainsearch.pattern
      s.mainsearch.options s.mainsearch_attr depth _ (hdepth hd) s hready rfl
    simp only [hd, not_true_eq_false, if_false, hs1]
    exact ⟨_, rfl⟩
  · obtain ⟨s1, hs1, _⟩ := lookup_file_defined env s s.mainsearch.directory
      s.mainsearch.pattern s.mainsearch.options hready
    simp only [hd, not_false_eq_true, if_true, hs1]
    exact ⟨_, rfl⟩

/-! ## The bound on the nesting does not change the result -/

theorem readdir_loop_mono (env : env_t) (d1 d2 : session → List Char → Option session)
    (dir pattern options : List Char)
    (hd : ∀ s p s', d1 s p = some s' → d2 s p = some s') :
    ∀ (eps : List dirent) (s s' : session),
      readdir_loop env d1 dir pattern options eps s = some s' →
      readdir_loop env d2 dir pattern options eps s = some s' := by
  intro eps
  induction eps with
  | nil => intro s s' h; exact h
  | cons ep rest ih =>
    intro s s' h
    rw [readdir_loop] at h ⊢
    split at h
    · cases h
    · rename_i s1 h1
      split at h
      · cases h
      · rename_i s2 h2
        have h3 : (if ep.d_type &&& DT_DIR ≠ 0 ∧ is_dir_good s1.mainsearch_attr ep.d_name = true
            then d2 s1 (snprintf_path PATH_MAX dir ep.d_name) else some s1) = some s2 := by
          split
          · rename_i hc; rw [if_pos hc] at h2; exact hd _ _ _ h2
          · rename_i hc; rw [if_neg hc] at h2; exact h2
        rw [h3]
        exact ih s2 s' h

theorem lookup_directory_succ (env : env_t) (pattern options : List Char) :
    ∀ (depth : Nat) (s : session) (dir : List Char) (s' : session),
      lookup_directory env pattern options depth s dir = some s' →
      lookup_directory env pattern options (depth + 1) s dir = some s' := by
  intro depth
  induction depth with
  | zero => intro s dir s' h; simp only [lookup_directory] at h; cases h
  | succ d ih =>
    intro s dir s' h
    rw [lookup_directory] at h ⊢
    cases ho : env.opendir dir with
    | none => rw [ho] at h; exact h
    | some eps =>
      rw [ho] at h
      exact readdir_loop_mono env _ _ dir pattern options (fun s p s' hp => ih s p s' hp)
        eps s s' h

theorem lookup_directory_mono (env : env_t) (pattern options : List Char)
    {depth depth2 : Nat} (hle : depth ≤ depth2) {s : session} {dir : List Char} {s' : session}
    (h : lookup_directory env pattern options depth s dir = some s') :
    lookup_directory env pattern options depth2 s dir = some s' := by
  induction hle with
  | refl => exact h
  | step _ ih => exact lookup_directory_succ env pattern options _ s dir s' ih

/-- A walk that completes within the bound `depth` gives the same session
with every larger bound. -/
theorem lookup_thread_mono (env : env_t) {depth depth2 : Nat} (hle : depth ≤ depth2)
    {s s' : session} (h : lookup_thread env depth s = some s') :
    lookup_thread env depth2 s = some s' := by
  unfold lookup_thread at h ⊢
  simp only at h ⊢
  by_cases hd : env.stat_isdir s.mainsearch.directory = true
  · simp only [hd, not_true_eq_false, if_false] at h ⊢
    cases h1 : lookup_directory env s.mainsearch.pattern s.mainsearch.options depth s
        s.mainsearch.directory with
    | none => rw [h1] at h; cases h
    | some s1 =>
      rw [h1] at h
      rw [lookup_directory_mono env _ _ hle h1]
      exact h
  · simp only [hd, not_false_eq_true, if_true] at h ⊢
    exact h


/-! ## C1: the result buffer is well-formed -/

/-- C1. For every walk (every file system, every matcher, every nesting
depth), the buffer of `mainsearch` that `lookup_thread` leaves, built by
`parse_file`, `mainsearch_add_file` and `mainsearch_add_line`, is well-formed
whenever it was well-formed at the start, as the empty buffer of `main` is: it
is empty or starts with a header, every match line has exactly one owning
header above it with no other header in between, and every header is
immediately followed by a match line.  This holds of every walk that
completes, and the walk does complete, with the same session for every bound
from `depth` on, when the matcher can be applied, the entry array has not
overflowed, every matching read has at least two bytes, and the directories
that the walk descends into (those whose name passes `is_dir_good`, so not
`.` and `..`) are nested at most `depth` levels deep. -/
theorem result_buffer_well_formed (env : env_t) (depth : Nat) (s : session)
    (hstart : well_formed s.mainsearch.entries) :
    (∀ s', lookup_thread env depth s = some s' → well_formed s'.mainsearch.entries) ∧
    (walk_ready env s.mainsearch.pattern s.mainsearch.options s →
      (env.stat_isdir s.mainsearch.directory = true →
        depth_bounds env s.mainsearch_attr depth s.mainsearch.directory) →
      ∃ s', (∀ d, depth ≤ d → lookup_thread env d s = some s') ∧
        well_formed s'.mainsearch.entries) := by
  refine ⟨fun s' hwalk => (lookup_thread_ok hwalk).1 hstart, fun hready hdepth => ?_⟩
  obtain ⟨s', hs'⟩ := lookup_thread_defined env depth s hready hdepth
  exact ⟨s', fun d hd => lookup_thread_mono env hd hs', (lookup_thread_ok hs').1 hstart⟩

/-- The tree `listed_env`, searched for `foo` from the root, meets the
conditions under which the walk completes. -/
theorem listed_ready :
    walk_ready listed_env scenario_start.mainsearch.pattern scenario_start.mainsearch.options
      scenario_start := by
  refine ⟨⟨_, rfl, fun h => absurd h (by decide)⟩, by decide, ?_⟩
  intro path f hop
  simp only [listed_env] at hop
  split at hop
  · cases hop; decide
  · split at hop
    · cases hop; decide
    · split at hop
      · cases hop; decide
      · split at hop
        · cases hop; decide
        · cases hop

/-- In `listed_env`, where every directory lists `.` and `..`, the
directories that the walk descends into are nested less than 3 levels deep. -/
theorem listed_depth :
    depth_bounds listed_env scenario_start.mainsearch_attr 3 ".".toList := by
  have hsrc : depth_bounds listed_env scenario_start.mainsearch_attr 2 "./src".toList := by
    rw [depth_bounds]
    have ho : listed_env.opendir "./src".toList =
        some [⟨".".toList, DT_DIR⟩, ⟨"..".toList, DT_DIR⟩, ⟨"m.c".toList, DT_REG⟩] := by decide
    rw [ho]
    intro ep he hd hg
    simp only [List.mem_cons, List.mem_singleton, List.not_mem_nil, or_false] at he
    rcases he with he | he | he <;> subst he
    · exact absurd hg (by decide)
    · exact absurd hg (by decide)
    · exact absurd rfl hd
  rw [depth_bounds]
  have ho : listed_env.opendir ".".toList =
      some [⟨".".toList, DT_DIR⟩, ⟨"..".toList, DT_DIR⟩, ⟨"a.c".toList, DT_REG⟩,
        ⟨"b.txt".toList, DT_REG⟩, ⟨".git".toList, DT_DIR⟩, ⟨"src".toList, DT_DIR⟩] := by decide
  rw [ho]
  intro ep he hd hg
  simp only [List.mem_cons, List.mem_singleton, List.not_mem_nil, or_false] at he
  rcases he with he | he | he | he | he | he <;> subst he
  · exact absurd hg (by decide)
  · exact absurd hg (by decide)
  · exact absurd rfl hd
  · exact absurd rfl hd
  · exact absurd hg (by decide)
  · exact hsrc

/-- C1 on a tree as `readdir` lists it, every directory with its entries `.`
and `..`: the conditions of the theorem hold, the walk completes for every
bound from 3 on, and it leaves a well-formed buffer, which is the one that
evaluating `lookup_thread` gives. -/
theorem result_buffer_well_formed_witness :
    listed_env.opendir "./src".toList =
      some [⟨".".toList, DT_DIR⟩, ⟨"..".toList, DT_DIR⟩, ⟨"m.c".toList, DT_REG⟩] ∧
    (∃ s', lookup_thread listed_env 3 scenario_start = some s' ∧
      s'.mainsearch.entries =
        [⟨"./a.c".toList, true⟩, ⟨"3:foo(x)\n".toList, false⟩,
         ⟨"./src/m.c".toList, true⟩, ⟨"1:foo\n".toList, false⟩] ∧
      well_formed s'.mainsearch.entries) ∧
    (∃ s', (∀ d, 3 ≤ d → lookup_thread listed_env d scenario_start = some s') ∧
      well_formed s'.mainsearch.entries) :=
  ⟨by decide,
   ⟨_, rfl, by decide,
     (result_buffer_well_formed listed_env 3 scenario_start well_formed_nil).1 _ rfl⟩,
   (result_buffer_well_formed listed_env 3 scenario_start well_formed_nil).2
     listed_ready (fun _ => listed_depth)⟩

/-! ## C4: which files `lookup_file` scans -/

/-- C5, as stated, fails.  After `-x ./src/build/` the exclude set holds
`./src/build`, which is exactly the path of the directory that the walker
opens; the walker compares exclude entries with entry names (`build`), so
the directory is descended into and `./src/build/x.c` is scanned. -/
theorem excluded_path_is_scanned :
    ∃ s s', nested_start = some s ∧ lookup_thread nested_env 4 s = some s' ∧
      s.mainsearch_attr.has_excludes = true ∧
      s.mainsearch_attr.firstexcl = ["./src/build".toList] ∧
      nested_env.opendir "./src/build".toList = some [⟨"x.c".toList, DT_REG⟩] ∧
      s'.parsed = ["./src/build/x.c".toList] :=
  ⟨_, _, rfl, rfl, rfl, by decide, by decide, by decide⟩

/-- C5, amended.  Every file that a completed walk passes to `parse_file` is
the search root itself, when the root is not a directory, or a non-directory
entry reached from the root through directory entries whose names all pass
the filter: none is `.`, `..`, `.git` or `.svn`, and none equals an exclude
entry (on the first `LINE_MAX` bytes).  So an entry with such a name is
neither read nor descended into.  The root itself is not filtered, and
exclude entries are compared with entry names, not with paths. -/
theorem walk_scans_reached_files (env : env_t) (depth : Nat) (s s' : session)
    (hwalk : lookup_thread env depth s = some s') :
    ∀ p ∈ s'.parsed, p ∈ s.parsed ∨
      (env.stat_isdir s.mainsearch.directory = false ∧ p = s.mainsearch.directory) ∨
      (env.stat_isdir s.mainsearch.directory = true ∧
        reached env s.mainsearch_attr s.mainsearch.directory p) :=
  (lookup_thread_ok hwalk).2

/-- C5 (amended) at the scenario of the specification: only `./a.c` is
scanned, nothing under `.git`. -/
theorem walk_scans_reached_files_witness :
    (∃ s', lookup_thread scenario_env 3 scenario_start = some s' ∧
      s'.parsed = ["./a.c".toList]) ∧
    ("./a.c".toList ∈ scenario_start.parsed ∨
      (scenario_env.stat_isdir scenario_start.mainsearch.directory = false ∧
        "./a.c".toList = scenario_start.mainsearch.directory) ∨
      (scenario_env.stat_isdir scenario_start.mainsearch.directory = true ∧
        reached scenario_env scenario_start.mainsearch_attr
          scenario_start.mainsearch.directory "./a.c".toList)) :=
  ⟨⟨_, rfl, by decide⟩,
    walk_scans_reached_files scenario_env 3 scenario_start _ rfl "./a.c".toList (by decide)⟩


/-! ## C6 and C7: the text of a match entry -/

set_option maxRecDepth 100000 in
/-- C6 fails on the code.  In `long_line_file` the line `foo` is the second
line, after a first line of 300 bytes; `parse_file` counts the reads of
`fgets`, two of which the first line takes, and stores the number 3. -/
theorem long_line_shifts_number :
    (file_lines long_line_file)[1]? = some "foo\n".toList ∧
    (parse_file long_line_env long_line_start "long.txt".toList "foo".toList []).map
        (fun s => s.mainsearch.entries)
      = some [⟨"long.txt".toList, true⟩, ⟨"3:foo\n".toList, false⟩] := by
  decide

/-- C7, as stated, fails.  In the scenario of the specification the third
line of `./a.c` is `foo(x)` followed by a newline; the stored entry keeps the
newline, so it is not `3:foo(x)`. -/
theorem newline_is_kept :
    (file_lines "int x;\n\nfoo(x)\n".toList)[2]? = some "foo(x)\n".toList ∧
    ∃ s', parse_file scenario_env scenario_start "./a.c".toList "foo".toList [] = some s' ∧
      s'.mainsearch.entries = [⟨"./a.c".toList, true⟩, ⟨"3:foo(x)\n".toList, false⟩] ∧
      (⟨"3:foo(x)".toList, false⟩ : entry_t) ∉ s'.mainsearch.entries :=
  ⟨by decide, _, rfl, by decide, by decide⟩

/-- C7, amended.  For a file whose lines all fit one read of the line buffer
(at most 255 bytes, newline included), `parse_file` appends nothing when no
line matches, and otherwise a header with the path followed by one entry per
matching line: the decimal line number, a colon, and the text of the line as
read, its newline included, except that when the byte before the last one is
a carriage return the text is cut at the carriage return; the whole limited
to 255 bytes.  This is what every completed call leaves, and the call
completes when the matcher can be applied, the entry array has not
overflowed, and every matching line has at least two bytes. -/
theorem stored_match_text (env : env_t) (s : session) (file pattern options f : List Char)
    (hopen : env.fopen file = some f)
    (hshort : ∀ l ∈ file_lines f, l.length ≤ 255) :
    (∀ s', parse_file env s file pattern options = some s' →
      s'.mainsearch.entries =
        s.mainsearch.entries ++
          file_entries (hit env s pattern options) file (file_lines f)) ∧
    (matcher_ready s → s.mainsearch.nbentry ≤ s.mainsearch.size →
      (∀ l ∈ file_lines f, hit env s pattern options (cstr l) = true → 2 ≤ (cstr l).length) →
      ∃ s', parse_file env s file pattern options = some s') := by
  have hreads := fgets_reads_eq_file_lines f [] (LINE_MAX - 1) (by simp [LINE_MAX]) hshort
  constructor
  · intro s' hparse
    obtain ⟨_, _, he⟩ := parse_file_some hparse
    rw [he, hopen]
    simp only
    rw [hreads]
    rfl
  · intro hready hcap hlen
    have hfr : frame s { s with parsed := s.parsed ++ [file] } := ⟨rfl, rfl, rfl, rfl, rfl⟩
    unfold parse_file
    rw [hopen]
    simp only
    rw [hreads]
    obtain ⟨s', hs', _⟩ := parse_loop_defined env file pattern options _ _ true 1
      (matcher_ready_frame hfr hready) hcap
      (fun r hr hh => hlen r hr (by rw [← hit_frame env hfr pattern options]; exact hh))
    exact ⟨s', hs'⟩

/-- C7 (amended) at the scenario of the specification: the call on `./a.c`
completes, and the entries stored are the header and `3:foo(x)` with the
newline. -/
theorem stored_match_text_witness :
    (∃ s', parse_file scenario_env scenario_start "./a.c".toList "foo".toList [] = some s') ∧
    (∃ s', parse_file scenario_env scenario_start "./a.c".toList "foo".toList [] = some s' ∧
      s'.mainsearch.entries =
        scenario_start.mainsearch.entries ++
          file_entries (hit scenario_env scenario_start "foo".toList []) "./a.c".toList
            (file_lines "int x;\n\nfoo(x)\n".toList)) ∧
    file_entries (hit scenario_env scenario_start "foo".toList []) "./a.c".toList
        (file_lines "int x;\n\nfoo(x)\n".toList)
      = [⟨"./a.c".toList, true⟩, ⟨"3:foo(x)\n".toList, false⟩] :=
  ⟨(stored_match_text scenario_env scenario_start "./a.c".toList "foo".toList []
      "int x;\n\nfoo(x)\n".toList rfl (by decide)).2
      ⟨_, rfl, fun h => absurd h (by decide)⟩ (by decide) (by decide),
   ⟨_, rfl,
    (stored_match_text scenario_env scenario_start "./a.c".toList "foo".toList []
      "int x;\n\nfoo(x)\n".toList rfl (by decide)).1 _ rfl⟩,
   by decide⟩


/-! ## Navigation on a well-formed buffer -/

/-- The code of `page_down` computes the transition with the cursor chosen by
the offset before the call. -/
theorem page_down_eq (LINES : Int) (stray : Int → Bool) (cur : search_t) (index cursor : Int)
    (hne : cur.entries ≠ []) :
    page_down LINES stray cur index cursor
      = page_down_by_old_offset LINES (is_file stray cur) cur.nbentry index := by
  have hn : cur.nbentry ≠ 0 := by
    unfold search_t.nbentry
    exact fun h => hne (List.length_eq_zero.1 h)
  unfold page_down page_down_by_old_offset max_offset
  simp only [hn, if_false]
  by_cases hr : (cur.nbentry : Int) % LINES = 0
  · simp only [hr, if_true, ne_eq, not_true_eq_false, if_false]
    by_cases hm : index + LINES > (cur.nbentry : Int) - LINES
    · rw [if_pos hm, min_eq_right (le_of_lt hm)]
    · rw [if_neg hm, min_eq_left (not_lt.1 hm)]
  · simp only [hr, if_false, ne_eq, not_false_eq_true, if_true]
    by_cases hm : index + LINES > (cur.nbentry : Int) - (cur.nbentry : Int) % LINES
    · rw [if_pos hm, min_eq_right (le_of_lt hm)]
    · rw [if_neg hm, min_eq_left (not_lt.1 hm)]

/-- The code of `page_up` computes the transition with the cursor chosen by
the offset before the call. -/
theorem page_up_eq (LINES : Int) (stray : Int → Bool) (cur : search_t) (index cursor : Int) :
    page_up LINES stray cur index cursor
      = page_up_by_old_offset LINES (is_file stray cur) index := by
  unfold page_up page_up_by_old_offset
  have hmax : (if index - LINES < 0 then 0 else index - LINES) = max (index - LINES) 0 := by
    by_cases h : index - LINES < 0
    · rw [if_pos h, max_eq_right (le_of_lt h)]
    · rw [if_neg h, max_eq_left (not_lt.1 h)]
  simp only [hmax]
  congr 1
  by_cases h1 : is_file stray cur (max (index - LINES) 0 + if index = 0 then 0 else LINES - 1) = true
  · by_cases h2 : max (index - LINES) 0 = 0 <;> simp [h1, h2]
  · by_cases h2 : max (index - LINES) 0 = 0 <;> simp [h1, h2]

theorem nbentry_pos {cur : search_t} (hne : cur.entries ≠ []) : (1 : Int) ≤ cur.nbentry := by
  unfold search_t.nbentry
  have : 0 < cur.entries.length := List.length_pos.2 hne
  omega

theorem is_file_stored (stray : Int → Bool) (cur : search_t) (k : Int) (h0 : 0 ≤ k)
    (h1 : k < cur.nbentry) : is_file stray cur k = true ↔ is_header cur.entries k.toNat := by
  unfold is_file is_header
  have hlt : k.toNat < cur.entries.length := by
    unfold search_t.nbentry at h1; omega
  simp only [h0, h1, and_self, if_true, List.getElem?_eq_getElem hlt, Option.map_some',
    Option.some.injEq]

/-- On a well-formed buffer the entry after a header is a stored match line. -/
theorem header_next (stray : Int → Bool) (cur : search_t) (hwf : well_formed cur.entries)
    (k : Int) (h0 : 0 ≤ k) (h1 : k < cur.nbentry) (hf : is_file stray cur k = true) :
    k + 1 < cur.nbentry ∧ is_file stray cur (k + 1) = false := by
  have hm := hwf.header_has_match _ ((is_file_stored stray cur k h0 h1).1 hf)
  have hlt := is_match_line_lt hm
  have hk : k + 1 < cur.nbentry := by unfold search_t.nbentry; omega
  refine ⟨hk, ?_⟩
  by_contra hc
  have hh := (is_file_stored stray cur (k + 1) (by omega) hk).1 (by simpa using hc)
  have : (k + 1).toNat = k.toNat + 1 := by omega
  rw [this] at hh
  exact not_header_of_match hm hh

/-- On a well-formed buffer the last entry is not a header. -/
theorem last_not_header (stray : Int → Bool) (cur : search_t) (hwf : well_formed cur.entries)
    (hne : cur.entries ≠ []) : is_file stray cur ((cur.nbentry : Int) - 1) = false := by
  have hn := nbentry_pos hne
  by_contra hc
  have := (header_next stray cur hwf ((cur.nbentry : Int) - 1) (by omega) (by omega)
    (by simpa using hc)).1
  omega

/-- On a well-formed buffer the entry before a header is not a header. -/
theorem before_header (stray : Int → Bool) (cur : search_t) (hwf : well_formed cur.entries)
    (k : Int) (h0 : 0 ≤ k) (h1 : k + 1 < cur.nbentry) (hf : is_file stray cur (k + 1) = true) :
    is_file stray cur k = false := by
  by_contra hc
  have := (header_next stray cur hwf k h0 (by omega) (by simpa using hc)).2
  rw [this] at hf
  cases hf

theorem emod_pred (n H : Int) (hH : 1 ≤ H) :
    (n - 1) % H = if n % H = 0 then H - 1 else n % H - 1 := by
  have hd := Int.ediv_add_emod n H
  have h0 := Int.emod_nonneg n (show H ≠ 0 by omega)
  have h1 := Int.emod_lt_of_pos n (show 0 < H by omega)
  split
  · rename_i hz
    have : n - 1 = (H - 1) + H * (n / H - 1) := by rw [hz] at hd; linarith
    rw [this, Int.add_mul_emod_self_left]
    exact Int.emod_eq_of_lt (by omega) (by omega)
  · rename_i hz
    have : n - 1 = (n % H - 1) + H * (n / H) := by linarith
    rw [this, Int.add_mul_emod_self_left]
    exact Int.emod_eq_of_lt (by omega) (by omega)

/-- The largest offset: it is a page boundary inside the buffer, and the last
entry is at row `(count - 1) % H` of its page. -/
theorem max_offset_facts (n H : Int) (hH : 1 ≤ H) (hn : 1 ≤ n) :
    0 ≤ max_offset n H ∧ max_offset n H ≤ n - 1 ∧ H ∣ max_offset n H ∧
      max_offset n H + (n - 1) % H = n - 1 ∧ 0 ≤ (n - 1) % H ∧ (n - 1) % H ≤ H - 1 := by
  have hd := Int.ediv_add_emod n H
  have h0 := Int.emod_nonneg n (show H ≠ 0 by omega)
  have h1 := Int.emod_lt_of_pos n (show 0 < H by omega)
  have hq : 0 ≤ n / H := Int.ediv_nonneg (by omega) (by omega)
  have hp := emod_pred n H hH
  unfold max_offset
  by_cases hz : n % H = 0
  · simp only [hz, ne_eq, not_true_eq_false, if_false, if_true] at hp ⊢
    have hdvd : H ∣ n := Int.dvd_of_emod_eq_zero hz
    have hle : H ≤ n := Int.le_of_dvd (by omega) hdvd
    refine ⟨by omega, by omega, Dvd.dvd.sub hdvd (dvd_refl H), by omega, by omega, by omega⟩
  · simp only [hz, ne_eq, not_false_eq_true, if_true, if_false] at hp ⊢
    have hmul : n - n % H = H * (n / H) := by linarith
    have hnn : 0 ≤ H * (n / H) := mul_nonneg (by omega) hq
    refine ⟨by omega, by omega, ?_, by omega, by omega, by omega⟩
    rw [hmul]
    exact dvd_mul_right H (n / H)

/-- Where `page_down` lands on a well-formed, non-empty buffer: inside the
buffer, on a match line, and on a page boundary when it started from one. -/
theorem page_down_lands (LINES : Int) (stray : Int → Bool) (cur : search_t) (index cursor : Int)
    (hwf : well_formed cur.entries) (hne : cur.entries ≠ []) (hH : 2 ≤ LINES)
    (hi : 0 ≤ index) :
    0 ≤ (page_down LINES stray cur index cursor).1 ∧
    0 ≤ (page_down LINES stray cur index cursor).2 ∧
    (page_down LINES stray cur index cursor).2 ≤ LINES - 1 ∧
    (page_down LINES stray cur index cursor).1 + (page_down LINES stray cur index cursor).2
      ≤ (cur.nbentry : Int) - 1 ∧
    is_file stray cur ((page_down LINES stray cur index cursor).1 +
      (page_down LINES stray cur index cursor).2) = false ∧
    (LINES ∣ index → LINES ∣ (page_down LINES stray cur index cursor).1) := by
  have hn := nbentry_pos hne
  obtain ⟨hm0, hm1, hmd, hml, hr0, hr1⟩ := max_offset_facts cur.nbentry LINES (by omega) hn
  rw [page_down_eq LINES stray cur index cursor hne]
  unfold page_down_by_old_offset
  simp only
  by_cases hidx : index = max_offset cur.nbentry LINES
  · have hmin : min (index + LINES) (max_offset cur.nbentry LINES)
        = max_offset cur.nbentry LINES := min_eq_right (by omega)
    have hlast := last_not_header stray cur hwf hne
    simp only [hidx, if_true] at hmin ⊢
    rw [hmin, hml, hlast]
    simp only [Bool.false_eq_true, if_false]
    exact ⟨hm0, hr0, hr1, by omega, by rw [hml]; exact hlast, fun _ => hmd⟩
  · simp only [hidx, if_false, add_zero]
    have ho0 : 0 ≤ min (index + LINES) (max_offset cur.nbentry LINES) := le_min (by omega) hm0
    have ho1 : min (index + LINES) (max_offset cur.nbentry LINES) ≤ max_offset cur.nbentry LINES :=
      min_le_right _ _
    have hod : LINES ∣ index → LINES ∣ min (index + LINES) (max_offset cur.nbentry LINES) := by
      intro hd
      rcases min_choice (index + LINES) (max_offset cur.nbentry LINES) with h | h
      · rw [h]; exact Dvd.dvd.add hd (dvd_refl LINES)
      · rw [h]; exact hmd
    generalize min (index + LINES) (max_offset cur.nbentry LINES) = o at ho0 ho1 hod ⊢
    by_cases hf : is_file stray cur o = true
    · have holt : o < (cur.nbentry : Int) := lt_of_le_of_lt ho1 (by linarith)
      obtain ⟨hn1, hn2⟩ := header_next stray cur hwf o ho0 holt hf
      simp only [hf, if_true]
      exact ⟨ho0, by linarith, by linarith, by linarith, hn2, hod⟩
    · have hf2 : is_file stray cur o = false := by simpa using hf
      simp only [hf2, Bool.false_eq_true, if_false, add_zero]
      exact ⟨ho0, le_refl 0, by linarith, by linarith, trivial, hod⟩

/-- Where `cursor_down` lands on a well-formed, non-empty buffer, from a state
inside the buffer. -/
theorem cursor_down_lands (LINES : Int) (stray : Int → Bool) (cur : search_t) (index cursor : Int)
    (hwf : well_formed cur.entries) (hne : cur.entries ≠ []) (hH : 2 ≤ LINES)
    (hi : 0 ≤ index) (hc0 : 0 ≤ cursor) (hic : index + cursor ≤ (cur.nbentry : Int) - 1) :
    0 ≤ (cursor_down LINES stray cur index cursor).1 ∧
    0 ≤ (cursor_down LINES stray cur index cursor).2 ∧
    (cursor_down LINES stray cur index cursor).2 ≤ LINES - 1 ∧
    (cursor_down LINES stray cur index cursor).1 + (cursor_down LINES stray cur index cursor).2
      ≤ (cur.nbentry : Int) - 1 ∧
    is_file stray cur ((cursor_down LINES stray cur index cursor).1 +
      (cursor_down LINES stray cur index cursor).2) = false ∧
    (LINES ∣ index → LINES ∣ (cursor_down LINES stray cur index cursor).1) := by
  have hpd := page_down_lands LINES stray cur index
  unfold cursor_down
  by_cases h1 : cursor = LINES - 1
  · rw [if_pos h1]
    exact hpd cursor hwf hne hH hi
  · rw [if_neg h1]
    simp only
    by_cases hadv : cursor + index < (cur.nbentry : Int) - 1
    · rw [if_pos hadv]
      by_cases hf : is_file stray cur (index + (cursor + 1)) = true
      · obtain ⟨hn1, hn2⟩ := header_next stray cur hwf (index + (cursor + 1)) (by linarith)
          (by linarith) hf
        rw [if_pos hf]
        by_cases hover : cursor + 1 + 1 > LINES - 1
        · rw [if_pos hover]
          exact hpd _ hwf hne hH hi
        · rw [if_neg hover]
          dsimp only
          have he : index + (cursor + 1 + 1) = index + (cursor + 1) + 1 := by ring
          exact ⟨hi, by linarith, by linarith, by linarith, by rw [he]; exact hn2, fun h => h⟩
      · have hf2 : is_file stray cur (index + (cursor + 1)) = false := by simpa using hf
        rw [if_neg hf]
        by_cases hover : cursor + 1 > LINES - 1
        · rw [if_pos hover]
          exact hpd _ hwf hne hH hi
        · rw [if_neg hover]
          dsimp only
          exact ⟨hi, by linarith, by linarith, by linarith, hf2, fun h => h⟩
    · rw [if_neg hadv]
      have hlast : index + cursor = (cur.nbentry : Int) - 1 := by linarith
      have hf2 : is_file stray cur (index + cursor) = false := by
        rw [hlast]; exact last_not_header stray cur hwf hne
      rw [if_neg (show ¬ is_file stray cur (index + cursor) = true by simp [hf2])]
      by_cases hover : cursor > LINES - 1
      · rw [if_pos hover]
        exact hpd _ hwf hne hH hi
      · rw [if_neg hover]
        dsimp only
        exact ⟨hi, hc0, by linarith, by linarith, hf2, fun h => h⟩

theorem nav_inv_intro {LINES : Int} {stray : Int → Bool} {cur : search_t} {i c : Int}
    (h1 : LINES ∣ i) (h2 : 0 ≤ i) (h3 : 0 ≤ c) (h4 : c ≤ LINES - 1)
    (h5 : i + c ≤ (cur.nbentry : Int) - 1)
    (h6 : is_file stray cur (i + c) = true → i = 0 ∧ (c = 0 ∨ c = LINES - 1)) :
    nav_inv LINES stray cur (i, c) :=
  ⟨h1, h2, h3, h4, h5, h6⟩

theorem page_up_inv (LINES : Int) (stray : Int → Bool) (cur : search_t) (index cursor : Int)
    (hwf : well_formed cur.entries) (hne : cur.entries ≠ []) (hH : 2 ≤ LINES)
    (hd : LINES ∣ index) (hi : 0 ≤ index) (hin : index ≤ (cur.nbentry : Int) - 1) :
    nav_inv LINES stray cur (page_up LINES stray cur index cursor) := by
  have hn := nbentry_pos hne
  rw [page_up_eq]
  by_cases h0 : index = 0
  · subst h0
    have hmax : max (0 - LINES) 0 = (0 : Int) := max_eq_right (by linarith)
    have hres : page_up_by_old_offset LINES (is_file stray cur) 0 = (0, 0) := by
      unfold page_up_by_old_offset
      simp only [hmax, if_true, ne_eq, not_true_eq_false, false_and, if_false]
    rw [hres]
    exact nav_inv_intro (dvd_zero LINES) (le_refl 0) (le_refl 0) (by linarith) (by linarith)
      (fun _ => ⟨rfl, Or.inl rfl⟩)
  · have hle : LINES ≤ index := Int.le_of_dvd (lt_of_le_of_ne hi (Ne.symm h0)) hd
    have hmax : max (index - LINES) 0 = index - LINES := max_eq_left (by linarith)
    have hd2 : LINES ∣ index - LINES := Dvd.dvd.sub hd (dvd_refl LINES)
    have hsum : index - LINES + (LINES - 1) = index - 1 := by ring
    by_cases h1 : index - LINES = 0
    · have hres : page_up_by_old_offset LINES (is_file stray cur) index = (0, LINES - 1) := by
        unfold page_up_by_old_offset
        simp only [h1, max_self, h0, if_false, ne_eq, not_true_eq_false, false_and]
      rw [hres]
      exact nav_inv_intro (dvd_zero LINES) (le_refl 0) (by linarith) (le_refl _) (by linarith)
        (fun _ => ⟨rfl, Or.inr rfl⟩)
    · have hle2 : LINES ≤ index - LINES :=
        Int.le_of_dvd (lt_of_le_of_ne (by linarith) (Ne.symm h1)) hd2
      by_cases hf : is_file stray cur (index - LINES + (LINES - 1)) = true
      · have hres : page_up_by_old_offset LINES (is_file stray cur) index
            = (index - LINES, LINES - 1 - 1) := by
          unfold page_up_by_old_offset
          simp only [hmax, h0, if_false]
          rw [if_pos ⟨h1, hf⟩]
        rw [hres]
        have hk : index - LINES + (LINES - 1 - 1) + 1 = index - LINES + (LINES - 1) := by ring
        have hb := before_header stray cur hwf (index - LINES + (LINES - 1 - 1)) (by linarith)
          (by linarith) (by rw [hk]; exact hf)
        refine nav_inv_intro hd2 (by linarith) (by linarith) (by linarith) (by linarith)
          (fun h => ?_)
        rw [hb] at h; cases h
      · have hres : page_up_by_old_offset LINES (is_file stray cur) index
            = (index - LINES, LINES - 1) := by
          unfold page_up_by_old_offset
          simp only [hmax, h0, if_false]
          rw [if_neg (fun h => hf h.2)]
        rw [hres]
        exact nav_inv_intro hd2 (by linarith) (by linarith) (le_refl _) (by linarith)
          (fun h => absurd h hf)

theorem cursor_up_inv (LINES : Int) (stray : Int → Bool) (cur : search_t) (st : Int × Int)
    (hwf : well_formed cur.entries) (hne : cur.entries ≠ []) (hH : 2 ≤ LINES)
    (hinv : nav_inv LINES stray cur st) :
    nav_inv LINES stray cur (cursor_up LINES stray cur st.1 st.2) := by
  obtain ⟨hd, hi, hc0, hc1, hic, hhdr⟩ := hinv
  have hpu := fun c => page_up_inv LINES stray cur st.1 c hwf hne hH hd hi (by linarith)
  unfold cursor_up
  by_cases h0 : st.2 = 0
  · rw [if_pos h0]; exact hpu _
  · rw [if_neg h0]
    have hpos : st.2 > 0 := lt_of_le_of_ne hc0 (Ne.symm h0)
    simp only [hpos, if_true]
    by_cases hf : is_file stray cur (st.1 + (st.2 - 1)) = true
    · rw [if_pos hf]
      by_cases hneg : st.2 - 1 - 1 < 0
      · rw [if_pos hneg]; exact hpu _
      · rw [if_neg hneg]
        have hk : st.1 + (st.2 - 1 - 1) + 1 = st.1 + (st.2 - 1) := by ring
        have hb := before_header stray cur hwf (st.1 + (st.2 - 1 - 1)) (by linarith)
          (by linarith) (by rw [hk]; exact hf)
        unfold nav_inv
        dsimp only
        refine ⟨hd, hi, by linarith, by linarith, by linarith, fun h => ?_⟩
        rw [hb] at h; cases h
    · rw [if_neg hf]
      rw [if_neg (show ¬ st.2 - 1 < 0 by linarith)]
      unfold nav_inv
      dsimp only
      refine ⟨hd, hi, by linarith, by linarith, by linarith, fun h => absurd h hf⟩

theorem cursor_down_inv (LINES : Int) (stray : Int → Bool) (cur : search_t) (st : Int × Int)
    (hwf : well_formed cur.entries) (hne : cur.entries ≠ []) (hH : 2 ≤ LINES)
    (hinv : nav_inv LINES stray cur st) :
    nav_inv LINES stray cur (cursor_down LINES stray cur st.1 st.2) := by
  obtain ⟨hd, hi, hc0, _, hic, _⟩ := hinv
  obtain ⟨h1, h2, h3, h4, h5, h6⟩ :=
    cursor_down_lands LINES stray cur st.1 st.2 hwf hne hH hi hc0 hic
  refine ⟨h6 hd, h1, h2, h3, h4, fun h => ?_⟩
  rw [h5] at h; cases h

theorem nav_run_inv (LINES : Int) (stray : Int → Bool) (cur : search_t)
    (hwf : well_formed cur.entries) (hne : cur.entries ≠ []) (hH : 2 ≤ LINES) :
    ∀ (keys : List nav_key) (st : Int × Int), nav_inv LINES stray cur st →
      nav_inv LINES stray cur (nav_run LINES stray cur keys st) := by
  intro keys
  induction keys with
  | nil => intro st h; exact h
  | cons k rest ih =>
    intro st h
    rw [nav_run]
    apply ih
    cases k with
    | down => exact cursor_down_inv LINES stray cur st hwf hne hH h
    | up => exact cursor_up_inv LINES stray cur st hwf hne hH h


/-! ## C9 and C10: `page_down` and `page_up` -/

/-- C9, as stated, fails.  With four entries and a page height of 2 the
largest offset is 2.  From offset 0 `page_down` reaches offset 2 and leaves
the cursor on row 0, because the offset before the call was not the largest
one; choosing by the new offset would give row `(4 - 1) % 2 = 1`. -/
theorem page_down_cursor_not_by_new_offset :
    page_down 2 (fun _ => false) (search_of one_file) 0 0 = (2, 0) ∧
    page_down_as_specified 2 (is_file (fun _ => false) (search_of one_file))
      (search_of one_file).nbentry 0 = (2, 1) := by
  decide

/-- C9, amended.  For every non-empty buffer of `count` entries and every
state, `page_down` sets the offset to `min (offset + H) maxOffset`, where
`maxOffset` is `count - count % H` when the remainder is not zero and
`count - H` otherwise; it sets the cursor by the offset before the call, to
`(count - 1) % H` when that offset equals `maxOffset` and to 0 otherwise; then
it moves the cursor forward by one when the entry at the new offset plus the
cursor is a file header. -/
theorem page_down_spec (LINES : Int) (stray : Int → Bool) (cur : search_t) (index cursor : Int)
    (hne : cur.entries ≠ []) :
    page_down LINES stray cur index cursor
      = page_down_by_old_offset LINES (is_file stray cur) cur.nbentry index :=
  page_down_eq LINES stray cur index cursor hne

/-- C9 (amended) on the buffer of one file with three match lines. -/
theorem page_down_spec_witness :
    page_down 2 (fun _ => false) (search_of one_file) 0 0
      = page_down_by_old_offset 2 (is_file (fun _ => false) (search_of one_file))
          (search_of one_file).nbentry 0 ∧
    page_down_by_old_offset 2 (is_file (fun _ => false) (search_of one_file))
      (search_of one_file).nbentry 0 = (2, 0) :=
  ⟨page_down_spec 2 (fun _ => false) (search_of one_file) 0 0 (by decide), by decide⟩

/-- C10, as stated, fails.  With a page height of 2, `page_up` from offset 2
reaches offset 0 and puts the cursor on row `H - 1 = 1`, because the offset
before the call was not 0; choosing by the new offset would give row 0. -/
theorem page_up_cursor_not_by_new_offset :
    page_up 2 (fun _ => false) (search_of one_file) 2 0 = (0, 1) ∧
    page_up_as_specified 2 (is_file (fun _ => false) (search_of one_file)) 2 = (0, 0) := by
  decide

/-- C10, amended.  For every buffer, page height and state, `page_up` sets the
offset to `max (offset - H) 0`; it sets the cursor by the offset before the
call, to 0 when that offset is 0 and to `H - 1` otherwise; then it moves the
cursor back by one when the new offset is not zero and the entry at the new
offset plus the cursor is a file header. -/
theorem page_up_spec (LINES : Int) (stray : Int → Bool) (cur : search_t) (index cursor : Int) :
    page_up LINES stray cur index cursor
      = page_up_by_old_offset LINES (is_file stray cur) index :=
  page_up_eq LINES stray cur index cursor

/-! ## C8: `cursor_down` stays inside the buffer -/

/-- C8. For every well-formed non-empty buffer of `count` entries, every page
height `H ≥ 2` and every state with `0 ≤ cursor ≤ H - 1`, `index ≥ 0` and
`index + cursor ≤ count - 1`, the state after `cursor_down` (with the
`page_down` it may call) has `index ≥ 0`, `0 ≤ cursor ≤ H - 1` and
`index + cursor ≤ count - 1`: the cursor never passes the last entry.  (The
bound `cursor ≤ H - 1` before the call is not needed.) -/
theorem cursor_down_in_bounds (LINES : Int) (stray : Int → Bool) (cur : search_t)
    (index cursor : Int) (hwf : well_formed cur.entries) (hne : cur.entries ≠ [])
    (hH : 2 ≤ LINES) (hc0 : 0 ≤ cursor) (hi : 0 ≤ index)
    (hic : index + cursor ≤ (cur.nbentry : Int) - 1) :
    0 ≤ (cursor_down LINES stray cur index cursor).1 ∧
    0 ≤ (cursor_down LINES stray cur index cursor).2 ∧
    (cursor_down LINES stray cur index cursor).2 ≤ LINES - 1 ∧
    (cursor_down LINES stray cur index cursor).1 + (cursor_down LINES stray cur index cursor).2
      ≤ (cur.nbentry : Int) - 1 := by
  obtain ⟨h1, h2, h3, h4, _, _⟩ :=
    cursor_down_lands LINES stray cur index cursor hwf hne hH hi hc0 hic
  exact ⟨h1, h2, h3, h4⟩

/-- C8 on the buffer of two files with a page height of 3: from the second
row, `cursor_down` skips the header in the third row by paging down. -/
theorem cursor_down_in_bounds_witness :
    cursor_down 3 (fun _ => false) (search_of two_files) 0 1 = (3, 0) ∧
    (0 ≤ (cursor_down 3 (fun _ => false) (search_of two_files) 0 1).1 ∧
     0 ≤ (cursor_down 3 (fun _ => false) (search_of two_files) 0 1).2 ∧
     (cursor_down 3 (fun _ => false) (search_of two_files) 0 1).2 ≤ 3 - 1 ∧
     (cursor_down 3 (fun _ => false) (search_of two_files) 0 1).1 +
       (cursor_down 3 (fun _ => false) (search_of two_files) 0 1).2
       ≤ ((search_of two_files).nbentry : Int) - 1) :=
  ⟨by decide,
    cursor_down_in_bounds 3 (fun _ => false) (search_of two_files) 0 1 two_files_well_formed
      (by decide) (by decide) (by decide) (by decide) (by decide)⟩


/-! ## C2: where the cursor can rest -/

/-- C2, as stated, fails.  On the well-formed buffer of two files, with a
page height of 3, the keys down, down, up leave the cursor on entry 2, the
header of the second file: `page_up` does not step back from a header when it
arrives on the first page.  One more up and one more up leave it on entry 0,
the header of the first file. -/
theorem cursor_rests_on_header :
    well_formed two_files ∧
    nav_run 3 (fun _ => false) (search_of two_files) [.down, .down, .up] (0, 0) = (0, 2) ∧
    is_file (fun _ => false) (search_of two_files) (0 + 2) = true ∧
    nav_run 3 (fun _ => false) (search_of two_files) [.down, .down, .up, .up, .up] (0, 0)
      = (0, 0) ∧
    is_file (fun _ => false) (search_of two_files) (0 + 0) = true :=
  ⟨well_formed_of_bounded two_files (by decide) (by decide), by decide, by decide, by decide,
    by decide⟩

/-- C2, amended.  For every well-formed non-empty buffer and every page height
`H ≥ 2`, after any finite sequence of `cursor_down` and `cursor_up` from the
initial state (index 0, cursor 0), the cursor is a row of the page, the entry
at `index + cursor` is a stored entry, and it is a file header only on the
first page (`index = 0`) with the cursor in the first row or in the last row
(`cursor = 0` or `cursor = H - 1`); on every later page, and in every other
row, the cursor rests on a match line. -/
theorem cursor_on_header_only_first_page (LINES : Int) (stray : Int → Bool) (cur : search_t)
    (keys : List nav_key) (hwf : well_formed cur.entries) (hne : cur.entries ≠ [])
    (hH : 2 ≤ LINES) :
    0 ≤ (nav_run LINES stray cur keys (0, 0)).1 ∧
    0 ≤ (nav_run LINES stray cur keys (0, 0)).2 ∧
    (nav_run LINES stray cur keys (0, 0)).2 ≤ LINES - 1 ∧
    (nav_run LINES stray cur keys (0, 0)).1 + (nav_run LINES stray cur keys (0, 0)).2
      ≤ (cur.nbentry : Int) - 1 ∧
    (is_file stray cur ((nav_run LINES stray cur keys (0, 0)).1 +
        (nav_run LINES stray cur keys (0, 0)).2) = true →
      (nav_run LINES stray cur keys (0, 0)).1 = 0 ∧
      ((nav_run LINES stray cur keys (0, 0)).2 = 0 ∨
       (nav_run LINES stray cur keys (0, 0)).2 = LINES - 1)) := by
  have hn := nbentry_pos hne
  have h0 : nav_inv LINES stray cur (0, 0) :=
    ⟨dvd_zero LINES, le_refl 0, le_refl 0, by dsimp only; linarith, by dsimp only; linarith,
      fun _ => ⟨rfl, Or.inl rfl⟩⟩
  obtain ⟨_, h1, h2, h3, h4, h5⟩ := nav_run_inv LINES stray cur hwf hne hH keys (0, 0) h0
  exact ⟨h1, h2, h3, h4, h5⟩

/-- C2 (amended) on the buffer of two files with a page height of 3: after
down, down the cursor is on page 2, on a match line. -/
theorem cursor_on_header_only_first_page_witness :
    nav_run 3 (fun _ => false) (search_of two_files) [.down, .down] (0, 0) = (3, 0) ∧
    is_file (fun _ => false) (search_of two_files) (3 + 0) = false ∧
    (0 ≤ (nav_run 3 (fun _ => false) (search_of two_files) [.down, .down] (0, 0)).1 ∧
     0 ≤ (nav_run 3 (fun _ => false) (search_of two_files) [.down, .down] (0, 0)).2 ∧
     (nav_run 3 (fun _ => false) (search_of two_files) [.down, .down] (0, 0)).2 ≤ 3 - 1 ∧
     (nav_run 3 (fun _ => false) (search_of two_files) [.down, .down] (0, 0)).1 +
       (nav_run 3 (fun _ => false) (search_of two_files) [.down, .down] (0, 0)).2
       ≤ ((search_of two_files).nbentry : Int) - 1 ∧
     (is_file (fun _ => false) (search_of two_files)
        ((nav_run 3 (fun _ => false) (search_of two_files) [.down, .down] (0, 0)).1 +
         (nav_run 3 (fun _ => false) (search_of two_files) [.down, .down] (0, 0)).2) = true →
       (nav_run 3 (fun _ => false) (search_of two_files) [.down, .down] (0, 0)).1 = 0 ∧
       ((nav_run 3 (fun _ => false) (search_of two_files) [.down, .down] (0, 0)).2 = 0 ∨
        (nav_run 3 (fun _ => false) (search_of two_files) [.down, .down] (0, 0)).2 = 3 - 1))) :=
  ⟨by decide, by decide,
    cursor_on_header_only_first_page 3 (fun _ => false) (search_of two_files) [.down, .down]
      two_files_well_formed (by decide) (by decide)⟩


/-! ## C3: subsearch below a subsearch -/

theorem is_file_of_drop (stray : Int → Bool) (cur : search_t) (i : Nat) (fe : entry_t)
    (rest : List entry_t) (h : cur.entries.drop i = fe :: rest) :
    is_file stray cur (i : Int) = fe.isfile := by
  have hget : cur.entries[i]? = some fe := by
    have := List.getElem?_drop cur.entries i 0
    rw [h] at this
    simpa using this.symm
  have hlt : i < cur.entries.length := by
    by_contra hc
    rw [List.getElem?_eq_none (by omega)] at hget
    cases hget
  unfold is_file search_t.nbentry
  rw [if_pos ⟨by omega, by omega⟩]
  simp [hget]

/-- The loop of `subsearch` has no result when the handle of `current` was
never assigned and an entry that is not a header remains to be examined. -/
theorem subsearch_loop_unassigned (env : env_t) (stray : Int → Bool) (s : session)
    (cur : search_t) (hre : ∀ text, regex env s text = none) :
    ∀ (rest : List entry_t) (i : Nat) (child : search_t) (orphan : Bool) (new_data : List Char),
      cur.entries.drop i = rest → (∃ e ∈ rest, e.isfile = false) →
      subsearch_loop env stray s cur rest i child orphan new_data = none := by
  intro rest
  induction rest with
  | nil => intro i child orphan new_data _ h; obtain ⟨e, he, _⟩ := h; cases he
  | cons fe rest ih =>
    intro i child orphan new_data hdrop hex
    rw [subsearch_loop]
    have hf := is_file_of_drop stray cur i fe rest hdrop
    have hnext : cur.entries.drop (i + 1) = rest := by
      rw [← List.drop_drop, hdrop]; rfl
    cases hfe : fe.isfile with
    | true =>
      rw [hfe] at hf
      rw [if_pos hf]
      apply ih (i + 1) _ _ _ hnext
      obtain ⟨e, he, hef⟩ := hex
      rcases List.mem_cons.1 he with h1 | h1
      · subst h1; rw [hfe] at hef; cases hef
      · exact ⟨e, h1, hef⟩
    | false =>
      rw [hfe] at hf
      rw [if_neg (by simp [hf]), hre]

/-- The defect behind C3, in general: when `current` is a block allocated by an
earlier subsearch, its handle `regex` has not been assigned, and its buffer
holds a match line, then `subsearch(current)` has no defined result, for every
pattern that is not empty and compiles. -/
theorem nested_subsearch_undefined (env : env_t) (stray : Int → Bool) (s : session) (k : Nat)
    (cur : search_t) (search : List Char)
    (hcur : s.current = .node k) (hk : s.heap[k]? = some cur) (hre : cur.regex = none)
    (hline : ∃ e ∈ cur.entries, e.isfile = false)
    (hsearch : search ≠ []) (hcomp : env.regcomp (strncpy search LINE_MAX) = true) :
    subsearch env stray s s.current search = none := by
  have hklt : k < s.heap.length := by
    by_contra hc
    rw [List.getElem?_eq_none (by omega)] at hk
    cases hk
  have hne : search.isEmpty = false := by
    cases search with
    | nil => exact absurd rfl hsearch
    | cons _ _ => rfl
  unfold subsearch
  rw [hcur]
  simp only [hne, Bool.false_eq_true, if_false, session.deref, session.assign, is_regex_valid,
    hcomp, if_true, not_true_eq_false]
  have h1 : (s.heap ++ [{ init_searchstruct malloc_search_t with father := some (.node k) }])[k]?
      = some cur := by
    rw [List.getElem?_append_left hklt]; exact hk
  rw [h1]
  simp only
  have h2 : (((s.heap ++ [{ init_searchstruct malloc_search_t with father := some (.node k) }]).set k
        { cur with child := some (.node s.heap.length) }).set s.heap.length
        { init_searchstruct malloc_search_t with
            father := some (.node k), pattern := strncpy search LINE_MAX })[k]?
      = some { cur with child := some (.node s.heap.length) } := by
    rw [List.getElem?_set_ne (by omega), List.getElem?_set_self (by simp; omega)]
  rw [h2]
  simp only
  have key : ∀ (S : session) (C : search_t), (∀ text, regex env S text = none) →
      subsearch_loop env stray S { cur with child := some (.node s.heap.length) }
        cur.entries 0 C false [] = none :=
    fun S C h => subsearch_loop_unassigned env stray S _ h cur.entries 0 C false [] rfl hline
  rw [key]
  intro text
  unfold regex
  simp only [session.deref]
  rw [List.getElem?_set_ne (by omega), List.getElem?_set_self (by simp; omega)]
  simp only [hre]

/-- C3 fails on the code at nesting depth two.  From the primary buffer
`foo_lines` the subsearch for `bar` returns the child with the header of
`./a.c` and its line, as claimed.  After a first subsearch for `foo`, whose
child becomes `current`, the subsearch for `bar` examines the first match line
with `regexec` on `current->regex`: `is_regex_valid` has stored the compiled
pattern in `mainsearch.regex`, and the handle of the current context, a block
from `malloc`, was never assigned.  No child buffer is defined. -/
theorem nested_subsearch_reads_unassigned_regex :
    (∃ s', subsearch scenario_env (fun _ => false) foo_session .main "bar".toList
        = some (s', some (.node 0)) ∧
      (s'.deref (.node 0)).map (fun t => t.entries)
        = some [⟨"./a.c".toList, true⟩, ⟨"1:foo bar\n".toList, false⟩]) ∧
    (∃ s1, main_case_slash scenario_env (fun _ => false) foo_session "foo".toList = some s1 ∧
      s1.current = .node 0 ∧
      (s1.deref s1.current).map (fun t => t.entries) = some foo_lines ∧
      (s1.deref s1.current).map (fun t => t.regex) = some none ∧
      s1.mainsearch.regex = some "foo".toList ∧
      scenario_env.regcomp "bar".toList = true ∧
      subsearch scenario_env (fun _ => false) s1 s1.current "bar".toList = none) :=
  ⟨⟨_, rfl, by decide⟩, ⟨_, rfl, by decide, by decide, by decide, by decide, by decide, by decide⟩⟩

/-! ## C12: a pattern that does not compile at startup -/

/-- The function `get_args` calls no `parse_file`, and an option `-e` leaves
`is_regex` set. -/
theorem get_args_keeps :
    ∀ (opts : List getopt_result) (s : session) (p : progress), get_args s opts = some p →
      (∀ status stderr s1, p = .exits status stderr s1 → s1.parsed = s.parsed) ∧
      (∀ s1, p = .go s1 → s1.parsed = s.parsed ∧ s1.current = s.current ∧
        ((s.mainsearch.is_regex = true ∨ getopt_result.e ∈ opts) →
          s1.mainsearch.is_regex = true)) := by
  intro opts
  induction opts with
  | nil =>
    intro s p h
    simp only [get_args] at h
    cases h
    refine ⟨fun _ _ _ h => (by cases h), fun s1 h => ?_⟩
    cases h
    exact ⟨rfl, rfl, fun hr => hr.elim id (fun hm => by cases hm)⟩
  | cons opt rest ih =>
    intro s p h
    have hmem : ∀ {s2 : session} {s1 : session},
        (s2.mainsearch.is_regex = true ∨ getopt_result.e ∈ rest → s1.mainsearch.is_regex = true) →
        s2.mainsearch.is_regex = s.mainsearch.is_regex → opt ≠ getopt_result.e →
        (s.mainsearch.is_regex = true ∨ getopt_result.e ∈ opt :: rest) →
        s1.mainsearch.is_regex = true := by
      intro s2 s1 himp heq hne hor
      apply himp
      rcases hor with h1 | h1
      · exact Or.inl (heq.trans h1)
      · rcases List.mem_cons.1 h1 with h2 | h2
        · exact absurd h2.symm hne
        · exact Or.inr h2
    cases opt with
    | h =>
      simp only [get_args, usage] at h
      cases h
      exact ⟨fun _ _ _ h => (by cases h; rfl), fun _ h => (by cases h)⟩
    | other =>
      simp only [get_args] at h
      cases h
      exact ⟨fun _ _ _ h => (by cases h; rfl), fun _ h => (by cases h)⟩
    | i =>
      rw [get_args] at h
      obtain ⟨h1, h2⟩ := ih _ p h
      refine ⟨fun a b c hp => h1 a b c hp, fun s1 hp => ?_⟩
      obtain ⟨ha, hb, hc⟩ := h2 s1 hp
      exact ⟨ha, hb, hmem hc rfl (by simp)⟩
    | r =>
      rw [get_args] at h
      obtain ⟨h1, h2⟩ := ih _ p h
      refine ⟨fun a b c hp => h1 a b c hp, fun s1 hp => ?_⟩
      obtain ⟨ha, hb, hc⟩ := h2 s1 hp
      exact ⟨ha, hb, hmem hc rfl (by simp)⟩
    | f =>
      rw [get_args] at h
      obtain ⟨h1, h2⟩ := ih _ p h
      refine ⟨fun a b c hp => h1 a b c hp, fun s1 hp => ?_⟩
      obtain ⟨ha, hb, hc⟩ := h2 s1 hp
      exact ⟨ha, hb, hmem hc rfl (by simp)⟩
    | e =>
      rw [get_args] at h
      obtain ⟨h1, h2⟩ := ih _ p h
      refine ⟨fun a b c hp => h1 a b c hp, fun s1 hp => ?_⟩
      obtain ⟨ha, hb, hc⟩ := h2 s1 hp
      exact ⟨ha, hb, fun _ => hc (Or.inl rfl)⟩
    | t optarg =>
      rw [get_args] at h
      split at h
      · cases h
      · obtain ⟨h1, h2⟩ := ih _ p h
        refine ⟨fun a b c hp => h1 a b c hp, fun s1 hp => ?_⟩
        obtain ⟨ha, hb, hc⟩ := h2 s1 hp
        exact ⟨ha, hb, hmem hc rfl (by simp)⟩
    | x optarg =>
      rw [get_args] at h
      split at h
      · cases h
      · obtain ⟨h1, h2⟩ := ih _ p h
        refine ⟨fun a b c hp => h1 a b c hp, fun s1 hp => ?_⟩
        obtain ⟨ha, hb, hc⟩ := h2 s1 hp
        exact ⟨ha, hb, hmem hc rfl (by simp)⟩

/-- The defect behind C12, in general: for every command line with `-e` that
`get_args` accepts, and a pattern that does not compile, `main` writes
`Bad regexp` and ends through the label `quit`, whose `return 0` is the exit
status; no thread has been created and `parse_file` has not been called. -/
theorem bad_regexp_returns_zero (env : env_t) (firstspec firstext : List (List Char))
    (opts : List getopt_result) (pattern : List Char) (dirs : List (List Char))
    (thread_created : Bool) (s1 : session)
    (hargs : get_args (main_globals firstspec firstext) opts = some (.go s1))
    (he : getopt_result.e ∈ opts)
    (hp : pattern.length < LINE_MAX) (hd : dirs.length ≤ 1)
    (hdl : ∀ d ∈ dirs, d.length < PATH_MAX)
    (hbad : env.regcomp pattern = false) :
    ∃ s2, main_startup env firstspec firstext opts (pattern :: dirs) thread_created
        = some (.exits 0 "Bad regexp\n".toList s2) ∧ s2.parsed = [] := by
  obtain ⟨hpar, _, hre⟩ := (get_args_keeps opts _ _ hargs).2 s1 rfl
  have hre1 : s1.mainsearch.is_regex = true := hre (Or.inr he)
  have hpar1 : s1.parsed = [] := hpar
  unfold main_startup
  rw [hargs]
  cases dirs with
  | nil =>
    simp only [if_neg (Nat.not_le.2 hp), is_regex_valid, hbad, hre1, main_quit,
      Bool.false_eq_true, if_false, and_self, if_true]
    exact ⟨_, rfl, hpar1⟩
  | cons d rest =>
    cases rest with
    | cons d2 rest2 => simp at hd
    | nil =>
      have hdlen : ¬ PATH_MAX ≤ d.length := Nat.not_le.2 (hdl d (List.mem_cons_self _ _))
      simp only [if_neg (Nat.not_le.2 hp), if_neg hdlen, is_regex_valid, hbad, hre1, main_quit,
        Bool.false_eq_true, if_false, and_self, if_true]
      exact ⟨_, rfl, hpar1⟩

/-- C12 fails on the code.  For `ngp -e '[' .`, where the pattern does not
compile, `main` reports `Bad regexp`, starts no walker thread and has called
no `parse_file`, as claimed, but it ends through the label `quit` and its
`return 0`: the exit status is 0.  (With the pattern `foo` the same command
line goes on to start the walker.) -/
theorem bad_regexp_exit_status_zero :
    bracket_env.regcomp "[".toList = false ∧
    (∃ s, main_startup bracket_env [] [".c".toList] [.e] ["[".toList, ".".toList] true
        = some (.exits 0 "Bad regexp\n".toList s) ∧ s.parsed = []) ∧
    (∃ s, main_startup bracket_env [] [".c".toList] [.e] ["foo".toList, ".".toList] true
        = some (.go s)) :=
  ⟨by decide, ⟨_, rfl, by decide⟩, ⟨_, rfl⟩⟩

/-! ## C11: a subsearch pattern that does not compile -/

/-- The defect behind C11, in general: for a pattern that is not empty and
does not compile, `subsearch` returns `NULL` and leaves `current`, the
buffers, the navigation state and the regex handles as they were, but the
`child` field of the father points to the block that was allocated before the
pattern was checked. -/
theorem subsearch_invalid_pattern (env : env_t) (stray : Int → Bool) (s : session)
    (father : search_ptr) (f : search_t) (search : List Char)
    (hf : s.deref father = some f) (hsearch : search ≠ [])
    (hbad : env.regcomp (strncpy search LINE_MAX) = false) :
    ∃ s', subsearch env stray s father search = some (s', none) ∧
      s'.current = s.current ∧
      s'.deref father = some { f with child := some (.node s.heap.length) } ∧
      s'.heap.length = s.heap.length + 1 ∧
      s'.mainsearch.entries = s.mainsearch.entries ∧
      s'.mainsearch.index = s.mainsearch.index ∧
      s'.mainsearch.cursor = s.mainsearch.cursor ∧
      s'.mainsearch.regex = s.mainsearch.regex := by
  have hne : search.isEmpty = false := by
    cases search with
    | nil => exact absurd rfl hsearch
    | cons _ _ => rfl
  unfold subsearch
  cases father with
  | main =>
    simp only [session.deref] at hf
    cases hf
    simp only [hne, Bool.false_eq_true, if_false, session.deref, session.assign, is_regex_valid,
      hbad, not_false_eq_true, if_true]
    exact ⟨_, rfl, rfl, rfl, by simp, rfl, rfl, rfl, rfl⟩
  | node k =>
    simp only [session.deref] at hf
    have hklt : k < s.heap.length := by
      by_contra hc
      rw [List.getElem?_eq_none (by omega)] at hf
      cases hf
    simp only [hne, Bool.false_eq_true, if_false, session.deref, session.assign, is_regex_valid,
      hbad, not_false_eq_true, if_true]
    rw [List.getElem?_append_left hklt, hf]
    simp only
    refine ⟨_, rfl, rfl, ?_, by simp, rfl, rfl, rfl, rfl⟩
    simp only [session.deref]
    rw [List.getElem?_set_ne (by omega), List.getElem?_set_self (by simp; omega)]

/-- C11 fails on the code.  In the session `foo_session`, whose primary search
is current and has no child, the subsearch for `[`, which does not compile,
returns `NULL`; `current`, the buffer, the navigation state and the regex
handle of the primary search are unchanged, as claimed.  But `subsearch` has
allocated the child and assigned `father->child` before it checks the
pattern: the child reference of the primary search now points to that block. -/
theorem invalid_pattern_leaves_child_linked :
    bracket_env.regcomp "[".toList = false ∧
    foo_session.mainsearch.child = none ∧ foo_session.heap = [] ∧
    ∃ s', subsearch bracket_env (fun _ => false) foo_session foo_session.current "[".toList
        = some (s', none) ∧
      main_case_slash bracket_env (fun _ => false) foo_session "[".toList = some s' ∧
      s'.current = foo_session.current ∧
      s'.mainsearch.entries = foo_session.mainsearch.entries ∧
      s'.mainsearch.index = foo_session.mainsearch.index ∧
      s'.mainsearch.cursor = foo_session.mainsearch.cursor ∧
      s'.mainsearch.regex = foo_session.mainsearch.regex ∧
      s'.mainsearch.child = some (.node 0) ∧
      s'.heap.length = 1 :=
  ⟨by decide, by decide, by decide, _, rfl, rfl, by decide, by decide, by decide, by decide,
    by decide, by decide, by decide⟩

/-! ## C13: the capacity of the child buffer -/

/-- The defect behind C13, in general: when the child has room for exactly one
more entry, a header is pending and the line under examination matches, the
single `check_alloc` does not grow the array; the header takes the last slot
and the line is written at index `size`, past the capacity. -/
theorem subsearch_loop_overflow (env : env_t) (stray : Int → Bool) (s : session)
    (cur : search_t) (fe : entry_t) (rest : List entry_t) (i : Nat) (child : search_t)
    (new_data : List Char)
    (hline : is_file stray cur i = false) (hmatch : regex env s fe.data = some true)
    (hfull : child.nbentry + 1 = child.size) :
    check_alloc child 100 = child ∧
    (∃ c, store child ⟨new_data, true⟩ = some c ∧ c.nbentry = c.size ∧
      store c ⟨strncpy fe.data LINE_MAX, false⟩ = none) ∧
    subsearch_loop env stray s cur (fe :: rest) i child true new_data = none := by
  have hca : check_alloc child 100 = child := by
    unfold check_alloc
    rw [if_neg (by omega)]
  have hst : store child ⟨new_data, true⟩
      = some { child with entries := child.entries ++ [⟨new_data, true⟩] } := by
    unfold store
    rw [if_pos (by omega)]
  have hfull2 : ({ child with entries := child.entries ++ [⟨new_data, true⟩] } : search_t).nbentry
      = child.size := by
    unfold search_t.nbentry at hfull ⊢
    simp only [List.length_append, List.length_cons, List.length_nil]
    omega
  have hst2 : store { child with entries := child.entries ++ [⟨new_data, true⟩] }
      ⟨strncpy fe.data LINE_MAX, false⟩ = none := by
    unfold store
    rw [if_neg (by rw [hfull2]; exact Nat.lt_irrefl _)]
  refine ⟨hca, ⟨_, hst, hfull2, hst2⟩, ?_⟩
  rw [subsearch_loop]
  rw [if_neg (by simp [hline]), hmatch]
  simp only [if_true, hca, hst, hst2]

/-- The buffer `crowded_lines` is well-formed. -/
theorem crowded_lines_well_formed : well_formed crowded_lines :=
  well_formed_of_bounded crowded_lines (by decide) (by decide)

set_option maxRecDepth 100000 in
/-- C13 fails on the code.  The well-formed primary buffer `crowded_lines` has
a first file with 98 match lines and a second file with one, all containing
`foo`, and `foo` compiles.  After the first file and the header of the second
the child holds 99 entries in an array of 100 and a header is pending.  For
the line of the second file `check_alloc` finds `99 < 100` and leaves the
array alone, the header is written at index 99, and the line at index 100,
which is not below the capacity 100: `subsearch` writes past the array. -/
theorem pending_header_overflows :
    well_formed crowded_lines ∧
    scenario_env.regcomp "foo".toList = true ∧
    crowded_lines.length = 101 ∧
    subsearch scenario_env (fun _ => false) crowded_session .main "foo".toList = none ∧
    crowded_before_line.map (fun c => (c.nbentry, c.size, decide (check_alloc c 100 = c)))
      = some (99, 100, true) ∧
    (crowded_before_line.bind (fun c => store c ⟨"./b.c".toList, true⟩)).map
        (fun c => (c.nbentry, c.size)) = some (100, 100) ∧
    (crowded_before_line.bind (fun c => store c ⟨"./b.c".toList, true⟩)).bind
        (fun c => store c ⟨"1:foo\n".toList, false⟩) = none := by
  refine ⟨crowded_lines_well_formed, by decide, by decide, by decide, by decide, by decide,
    by decide⟩

end Ngp
